import Mathlib

/-!
# Consul-backed gRPC name resolvers (`lb/consul.go`, `lb/consul/consul.go`)

A shallow embedding of the two watcher implementations of the repository:

* `lb.ConsulResolver` (`lb/consul.go`): one watcher that polls Consul itself;
* `consul.StreamDemux` / `consul.Resolver` (`lb/consul/consul.go`): one shared
  poll loop that broadcasts snapshots to any number of watchers.

Go channels are modelled by an explicit buffer with a capacity and a closed
flag; an operation that would block or panic returns `Outcome.blocked` or
`Outcome.panicked`. The goroutine of a `consul.Resolver` is part of the state
(`ResolverProc`): it runs to its next channel operation as soon as it can, and
a send that cannot proceed leaves it parked until the consumer makes room.

A Go `map[string]struct{}` is modelled by the list of its distinct keys. Go
leaves the iteration order of a map unspecified; the model iterates in one
fixed order. The general statements below about a batch of updates speak of
membership, multiplicity and length only, never of the position of an update
inside its batch; the worked scenarios show a batch in the order of the model.
`ConsulResolver.makeUpdatesRanging_perm` shows that any other iteration order
only rearranges the batch.
-/

/-! ## `google.golang.org/grpc/naming` -/

namespace naming

/-- The `naming.Operation` enumeration: `Add` and `Delete`. -/
inductive Operation where
  | Add
  | Delete
  deriving DecidableEq, Repr

/-- The `naming.Update` record: an operation and the address it applies to. -/
structure Update where
  Op : Operation
  Addr : String
  deriving DecidableEq, Repr

end naming

/-! ## Outcomes and channels -/

/-- Result of running a piece of Go code: it completes with a value, it parks
on a channel operation that cannot proceed, or it panics. -/
inductive Outcome (α : Type) where
  | ok (a : α)
  | blocked
  | panicked
  deriving DecidableEq, Repr

namespace Outcome

/-- Sequencing: a blocked or panicked prefix stops the computation. -/
def bind {α β : Type} (o : Outcome α) (f : α → Outcome β) : Outcome β :=
  match o with
  | ok a => f a
  | blocked => blocked
  | panicked => panicked

end Outcome

/-- A Go channel `make(chan α, cap)`: the values buffered (oldest first) and
whether `close` has been called on it. -/
structure Chan (α : Type) where
  cap : Nat
  buf : List α
  closed : Bool
  deriving DecidableEq, Repr

namespace Chan

/-- The `make(chan α, cap)` builtin. -/
def make (α : Type) (cap : Nat) : Chan α :=
  { cap := cap, buf := [], closed := false }

/-- The statement `c <- v` with no receiver waiting: panics on a closed
channel, buffers `v` when there is room, blocks otherwise. -/
def send {α : Type} (c : Chan α) (v : α) : Outcome (Chan α) :=
  if c.closed then Outcome.panicked
  else if c.buf.length < c.cap then Outcome.ok { c with buf := c.buf ++ [v] }
  else Outcome.blocked

/-- The expression `<-c` with no sender waiting: the oldest buffered value if
there is one, the zero value `zero` on a closed and drained channel, blocks
otherwise. -/
def recv {α : Type} (zero : α) (c : Chan α) : Outcome (α × Chan α) :=
  match c.buf with
  | v :: rest => Outcome.ok (v, { c with buf := rest })
  | [] => if c.closed then Outcome.ok (zero, c) else Outcome.blocked

/-- The `close(c)` builtin: panics when `c` is already closed. -/
def close {α : Type} (c : Chan α) : Outcome (Chan α) :=
  if c.closed then Outcome.panicked else Outcome.ok { c with closed := true }

end Chan

/-! ## The snapshot differ -/

/-- The key set of the Go map built by
`m := make(map[string]struct{}); for _, i := range instances { m[i] = struct{}{} }`. -/
def addrSet (instances : List String) : List String :=
  instances.dedup

namespace ConsulResolver

/-- `ConsulResolver.makeUpdates` (`lb/consul.go`, lines 128-151): an `Add` for
every key of `newAddr` missing from `oldAddr`, then a `Delete` for every key of
`oldAddr` missing from `newAddr`. -/
def makeUpdates (oldInstances newInstances : List String) : List naming.Update :=
  let oldAddr := addrSet oldInstances
  let newAddr := addrSet newInstances
  let updates : List naming.Update := []
  let updates := updates ++
    (newAddr.filter (fun addr => decide (addr ∉ oldAddr))).map
      (fun addr => { Op := naming.Operation.Add, Addr := addr })
  let updates := updates ++
    (oldAddr.filter (fun addr => decide (addr ∉ newAddr))).map
      (fun addr => { Op := naming.Operation.Delete, Addr := addr })
  updates

/-- The body of `makeUpdates` with the two map iterations left open:
`rangeNew` and `rangeOld` are the orders in which `for addr := range newAddr`
and `for addr := range oldAddr` visit the keys. `makeUpdates` is the instance
in which both maps are visited in the order of `addrSet`. -/
def makeUpdatesRanging (rangeNew rangeOld oldInstances newInstances : List String) :
    List naming.Update :=
  let oldAddr := addrSet oldInstances
  let newAddr := addrSet newInstances
  let updates : List naming.Update := []
  let updates := updates ++
    (rangeNew.filter (fun addr => decide (addr ∉ oldAddr))).map
      (fun addr => { Op := naming.Operation.Add, Addr := addr })
  let updates := updates ++
    (rangeOld.filter (fun addr => decide (addr ∉ newAddr))).map
      (fun addr => { Op := naming.Operation.Delete, Addr := addr })
  updates

end ConsulResolver

/-! ## The registry client (`github.com/hashicorp/consul/api`) -/

namespace api

/-- The part of `api.AgentService` the resolvers read. -/
structure AgentService where
  Address : String
  Port : Int
  deriving DecidableEq, Repr

/-- The part of `api.Node` the resolvers read. -/
structure Node where
  Address : String
  deriving DecidableEq, Repr

/-- One element of the slice returned by `Health().Service`. -/
structure ServiceEntry where
  Node : Node
  Service : AgentService
  deriving DecidableEq, Repr

/-- The part of `api.QueryMeta` the resolvers read (`LastIndex` is a `uint64`
that is only stored and passed back, never computed with). -/
structure QueryMeta where
  LastIndex : Nat
  deriving DecidableEq, Repr

/-- The three results `([]*ServiceEntry, *QueryMeta, error)` of one call of
`Health().Service`; `none` is the nil pointer, respectively the nil error. -/
structure QueryResult where
  services : List ServiceEntry
  meta : Option QueryMeta
  err : Option String
  deriving DecidableEq, Repr

/-- The registry as the resolvers see it: what
`c.Health().Service(service, tag, passingOnly, &api.QueryOptions{WaitIndex: lastIndex})`
answers. The registry is an external collaborator, so its answers are an input
of the model. -/
abbrev Client := String → String → Bool → Nat → QueryResult

end api

/-- Go's `strconv.Itoa`. -/
def strconv.Itoa (i : Int) : String :=
  toString i

/-- Go's `net.JoinHostPort`: a host holding a colon is bracketed. (Go releases
before 1.11 also bracket a host holding a percent sign; the hosts of the
scenarios below hold neither.) -/
def net.JoinHostPort (host port : String) : String :=
  if ':' ∈ host.toList then "[" ++ host ++ "]:" ++ port else host ++ ":" ++ port

/-- The body of the loop over `services` in both `getInstances` functions
(`lb/consul.go` lines 116-121, `lb/consul/consul.go` lines 52-57): the address
of the service, or of its node when the service has none, joined with the
port. -/
def instanceAddr (service : api.ServiceEntry) : String :=
  let s := service.Service.Address
  let s := if s = "" then service.Node.Address else s
  net.JoinHostPort s (strconv.Itoa service.Service.Port)

/-! ## `lb.ConsulResolver` -/

/-- The `ConsulResolver` struct without its client `c`, which the functions
below take as a parameter. -/
structure ConsulResolver where
  service : String
  tag : String
  passingOnly : Bool
  quitc : Chan Unit
  updatesc : Chan (List naming.Update)
  deriving DecidableEq, Repr

/-- The local variables of the goroutine `go r.updater(instances, index)`. -/
structure Updater where
  oldInstances : List String
  lastIndex : Nat
  deriving DecidableEq, Repr

namespace ConsulResolver

/-- `ConsulResolver.getInstances` (lines 106-124): the addresses, the new
index and the error. Dereferencing a nil `meta` panics. -/
def getInstances (c : api.Client) (r : ConsulResolver) (lastIndex : Nat) :
    Outcome (List String × Nat × Option String) :=
  let res := c r.service r.tag r.passingOnly lastIndex
  match res.err with
  | some err => Outcome.ok ([], lastIndex, some err)
  | none =>
    let instances := res.services.map instanceAddr
    match res.meta with
    | none => Outcome.panicked
    | some m => Outcome.ok (instances, m.LastIndex, none)

/-- `NewConsulResolver` (lines 33-54): `Sum.inl err` is the result `(nil, err)`,
`Sum.inr (r, u)` is the result `(r, nil)` together with the goroutine
`r.updater(instances, index)` it has started. -/
def NewConsulResolver (c : api.Client) (service tag : String) :
    Outcome (String ⊕ (ConsulResolver × Updater)) :=
  let r : ConsulResolver :=
    { service := service, tag := tag, passingOnly := true,
      quitc := Chan.make Unit 0, updatesc := Chan.make (List naming.Update) 1 }
  (getInstances c r 0).bind fun res =>
    match res with
    | (_, _, some err) => Outcome.ok (Sum.inl err)
    | (instances, index, none) =>
      (r.updatesc.send (makeUpdates [] instances)).bind fun ch =>
        Outcome.ok (Sum.inr ({ r with updatesc := ch },
          { oldInstances := instances, lastIndex := index }))

/-- `ConsulResolver.Next` (lines 65-67): `return <-r.updatesc, nil`. The result
is the batch and the error; the zero value of the batch is the nil slice. -/
def Next (r : ConsulResolver) :
    Outcome ((List naming.Update × Option String) × ConsulResolver) :=
  (r.updatesc.recv []).bind fun res =>
    Outcome.ok ((res.1, none), { r with updatesc := res.2 })

/-- `ConsulResolver.Close` (lines 70-77): nothing when a receive on `quitc`
can proceed, otherwise close `quitc` and `updatesc`. -/
def Close (r : ConsulResolver) : Outcome ConsulResolver :=
  match r.quitc.recv () with
  | Outcome.ok res => Outcome.ok { r with quitc := res.2 }
  | Outcome.panicked => Outcome.panicked
  | Outcome.blocked =>
    r.quitc.close.bind fun q =>
      r.updatesc.close.bind fun ch =>
        Outcome.ok { r with quitc := q, updatesc := ch }

/-- One iteration of the `for` loop of `ConsulResolver.updater` (lines 88-101).
When a receive on `quitc` can proceed, `break` leaves the `select` and the
iteration ends; otherwise the registry is polled, an error panics, and the
diff is sent on `updatesc` whatever its length. -/
def updater (c : api.Client) (r : ConsulResolver) (u : Updater) :
    Outcome (ConsulResolver × Updater) :=
  match r.quitc.recv () with
  | Outcome.ok res => Outcome.ok ({ r with quitc := res.2 }, u)
  | Outcome.panicked => Outcome.panicked
  | Outcome.blocked =>
    (getInstances c r u.lastIndex).bind fun res =>
      match res with
      | (_, _, some _) => Outcome.panicked
      | (newInstances, lastIndex, none) =>
        (r.updatesc.send (makeUpdates u.oldInstances newInstances)).bind fun ch =>
          Outcome.ok ({ r with updatesc := ch },
            { oldInstances := newInstances, lastIndex := lastIndex })

end ConsulResolver

/-! ## `consul.Resolver` -/

/-- The `Resolver` struct. Its input channel `servicesc` is unbuffered and is
represented by the hand-over itself (`ResolverProc.deliver`), so the struct
keeps no field for it. -/
structure Resolver where
  service : String
  tag : String
  instances : List String
  quitc : Chan Unit
  updatesc : Chan (List naming.Update)
  deriving DecidableEq, Repr

/-- A `Resolver` together with the goroutine `go r.makeUpdates()` that owns
its update path. The goroutine is either waiting in `range r.servicesc`
(`pending = none`) or parked in the send of line 160 holding its local
variables `updates` and `newInstances` (`pending = some (updates, newInstances)`). -/
structure ResolverProc where
  r : Resolver
  pending : Option (List naming.Update × List String)
  deriving DecidableEq, Repr

namespace Resolver

/-- `Resolver.Next` (lines 119-122): `nextUpdate := <-r.updatesc; return nextUpdate, nil`. -/
def Next (r : Resolver) : Outcome ((List naming.Update × Option String) × Resolver) :=
  (r.updatesc.recv []).bind fun res =>
    Outcome.ok ((res.1, none), { r with updatesc := res.2 })

/-- `Resolver.Close` (lines 125-132): nothing when a receive on `quitc` can
proceed, otherwise close `quitc` and `updatesc`. -/
def Close (r : Resolver) : Outcome Resolver :=
  match r.quitc.recv () with
  | Outcome.ok res => Outcome.ok { r with quitc := res.2 }
  | Outcome.panicked => Outcome.panicked
  | Outcome.blocked =>
    r.quitc.close.bind fun q =>
      r.updatesc.close.bind fun ch =>
        Outcome.ok { r with quitc := q, updatesc := ch }

/-- Lines 160 and 162 of `Resolver.makeUpdates`, run by the goroutine holding
`updates` and `newInstances`: the send on `updatesc`, then the store into
`r.instances`. A send that cannot proceed leaves the goroutine parked, a send
on the closed channel panics. -/
def sendUpdates (r : Resolver) (updates : List naming.Update)
    (newInstances : List String) : Outcome ResolverProc :=
  match r.updatesc.send updates with
  | Outcome.ok ch =>
    Outcome.ok { r := { r with updatesc := ch, instances := newInstances }, pending := none }
  | Outcome.blocked => Outcome.ok { r := r, pending := some (updates, newInstances) }
  | Outcome.panicked => Outcome.panicked

/-- One iteration of the loop of `Resolver.makeUpdates` (lines 137-163) on the
snapshot `newInstances` received from `servicesc`: the same diff as
`ConsulResolver.makeUpdates` against `r.instances`, sent only when it is not
empty, then `r.instances = newInstances`. `quitc` is not consulted. -/
def makeUpdates (r : Resolver) (newInstances : List String) : Outcome ResolverProc :=
  let oldAddr := addrSet r.instances
  let newAddr := addrSet newInstances
  let updates : List naming.Update := []
  let updates := updates ++
    (newAddr.filter (fun addr => decide (addr ∉ oldAddr))).map
      (fun addr => { Op := naming.Operation.Add, Addr := addr })
  let updates := updates ++
    (oldAddr.filter (fun addr => decide (addr ∉ newAddr))).map
      (fun addr => { Op := naming.Operation.Delete, Addr := addr })
  if updates.length > 0 then sendUpdates r updates newInstances
  else Outcome.ok { r := { r with instances := newInstances }, pending := none }

end Resolver

namespace ResolverProc

/-- The hand-over `c <- addresses` of `StreamDemux.getInstances` on the
unbuffered channel of this resolver: it proceeds only when the goroutine is
waiting in `range r.servicesc`, and the goroutine then runs one iteration. -/
def deliver (p : ResolverProc) (addresses : List String) : Outcome ResolverProc :=
  match p.pending with
  | some _ => Outcome.blocked
  | none => Resolver.makeUpdates p.r addresses

/-- The parked goroutine, if any, retries its send (after the consumer has
taken a batch or closed the channel). -/
def resume (p : ResolverProc) : Outcome ResolverProc :=
  match p.pending with
  | none => Outcome.ok p
  | some (updates, newInstances) => Resolver.sendUpdates p.r updates newInstances

/-- The consumer calls `Next()`; a parked goroutine then completes its send. -/
def Next (p : ResolverProc) :
    Outcome ((List naming.Update × Option String) × ResolverProc) :=
  (Resolver.Next p.r).bind fun res =>
    (resume { p with r := res.2 }).bind fun p1 => Outcome.ok (res.1, p1)

/-- The consumer calls `Close()`; a goroutine parked in its send then panics
on the closed channel. -/
def Close (p : ResolverProc) : Outcome ResolverProc :=
  (Resolver.Close p.r).bind fun r1 => resume { p with r := r1 }

end ResolverProc

/-! ## `consul.StreamDemux` -/

/-- The `instanceChannels` struct; a channel is named by the position of its
resolver in `World.resolvers`. -/
structure instanceChannels where
  lastIndex : Nat
  channels : List Nat
  deriving DecidableEq, Repr

/-- The `StreamDemux` struct without its client: the Go map `services` as the
list of its entries, keys distinct. -/
structure StreamDemux where
  services : List (String × instanceChannels)
  deriving DecidableEq, Repr

/-- The demultiplexer and the resolvers created from it. -/
structure World where
  sd : StreamDemux
  resolvers : List ResolverProc
  deriving DecidableEq, Repr

namespace StreamDemux

/-- `NewStreamDemux` (lines 17-30): an empty `services` map. Its goroutine calls
`getInstances` once per cycle. -/
def NewStreamDemux : World :=
  { sd := { services := [] }, resolvers := [] }

/-- The map read `sd.services[service]`. -/
def lookup (services : List (String × instanceChannels)) (service : String) :
    Option instanceChannels :=
  (services.find? (fun e => e.1 = service)).map Prod.snd

/-- Writing through the pointer `sd.services[service]`. -/
def update (services : List (String × instanceChannels)) (service : String)
    (f : instanceChannels → instanceChannels) : List (String × instanceChannels) :=
  services.map (fun e => if e.1 = service then (e.1, f e.2) else e)

/-- `StreamDemux.NewResolver` (lines 67-91): a fresh channel `resolverSc`, an
entry for `service` when there is none, the channel appended to the entry, and
a fresh `Resolver` with its goroutine. The result is the new state and the
position of the new resolver. -/
def NewResolver (w : World) (service tag : String) : World × Nat :=
  let resolverSc := w.resolvers.length
  let services :=
    match lookup w.sd.services service with
    | some _ => w.sd.services
    | none => w.sd.services ++ [(service, { lastIndex := 0, channels := [] })]
  let services := update services service
    (fun ic => { ic with channels := ic.channels ++ [resolverSc] })
  let r : Resolver :=
    { service := service, tag := tag, instances := [],
      quitc := Chan.make Unit 0, updatesc := Chan.make (List naming.Update) 1 }
  ({ sd := { services := services },
     resolvers := w.resolvers ++ [{ r := r, pending := none }] }, resolverSc)

/-- The loop `for _, c := range ic.channels { c <- addresses }` (lines 59-61). -/
def broadcast (addresses : List String) :
    List Nat → List ResolverProc → Outcome (List ResolverProc)
  | [], resolvers => Outcome.ok resolvers
  | c :: cs, resolvers =>
    match resolvers[c]? with
    | none => Outcome.blocked
    | some p =>
      (p.deliver addresses).bind fun p1 => broadcast addresses cs (resolvers.set c p1)

/-- The body of the loop of `StreamDemux.getInstances` for one entry `s, ic`
(lines 46-62): the query with its error dropped, the addresses, the broadcast,
and the store of `meta.LastIndex`, which panics on a nil `meta`. -/
def pollService (c : api.Client) (w : World) (s : String) (ic : instanceChannels) :
    Outcome World :=
  let res := c s "" true ic.lastIndex
  let addresses := res.services.map instanceAddr
  (broadcast addresses ic.channels w.resolvers).bind fun resolvers =>
    match res.meta with
    | none => Outcome.panicked
    | some m =>
      let services := update w.sd.services s (fun ic => { ic with lastIndex := m.LastIndex })
      Outcome.ok { sd := { services := services }, resolvers := resolvers }

/-- The loop `for s, ic := range sd.services` over the given entries. -/
def pollAll (c : api.Client) : List (String × instanceChannels) → World → Outcome World
  | [], w => Outcome.ok w
  | (s, ic) :: rest, w => (pollService c w s ic).bind (pollAll c rest)

/-- `StreamDemux.getInstances` (lines 44-64): one poll cycle. -/
def getInstances (c : api.Client) (w : World) : Outcome World :=
  pollAll c w.sd.services w

end StreamDemux

namespace World

/-- The consumer of resolver `i` calls `Next()`. -/
def Next (w : World) (i : Nat) : Outcome ((List naming.Update × Option String) × World) :=
  match w.resolvers[i]? with
  | none => Outcome.panicked
  | some p =>
    p.Next.bind fun res =>
      Outcome.ok (res.1, { w with resolvers := w.resolvers.set i res.2 })

/-- The consumer of resolver `i` calls `Close()`. -/
def Close (w : World) (i : Nat) : Outcome World :=
  match w.resolvers[i]? with
  | none => Outcome.panicked
  | some p =>
    p.Close.bind fun p1 => Outcome.ok { w with resolvers := w.resolvers.set i p1 }

end World


/-! ## States the constructors and methods can reach -/

/-- What `NewConsulResolver`, `Next`, `Close` and `updater` maintain: the
unbuffered `quitc` holds no value, and `quitc` and `updatesc` are closed
together. -/
def ConsulResolver.Inv (r : ConsulResolver) : Prop :=
  r.quitc.buf = [] ∧ r.quitc.closed = r.updatesc.closed

/-- What `NewResolver`, `Next`, `Close` and `makeUpdates` maintain: the
unbuffered `quitc` holds no value, and `quitc` and `updatesc` are closed
together. -/
def Resolver.Inv (r : Resolver) : Prop :=
  r.quitc.buf = [] ∧ r.quitc.closed = r.updatesc.closed

/-- The resolver `StreamDemux.NewResolver` creates (lines 79-88), its
goroutine waiting for the first snapshot. -/
def ResolverProc.fresh (service tag : String) : ResolverProc :=
  { r := { service := service, tag := tag, instances := [],
           quitc := Chan.make Unit 0, updatesc := Chan.make (List naming.Update) 1 },
    pending := none }

/-! ## Registries used in the worked scenarios -/

/-- A registry that knows no instance of any service. -/
def emptyRegistry : api.Client :=
  fun _ _ _ _ => { services := [], meta := some { LastIndex := 1 }, err := none }

/-- A registry that answers every query with the one instance `10.0.0.1:80`. -/
def steadyRegistry : api.Client :=
  fun _ _ _ lastIndex =>
    { services := [{ Node := { Address := "node-1" },
                     Service := { Address := "10.0.0.1", Port := 80 } }],
      meta := some { LastIndex := lastIndex + 1 }, err := none }

/-- A registry whose query for the service `down` fails the way the Consul
client reports a failure, `(nil, nil, err)`, and that answers every other
query with the one instance `10.0.0.1:80`. -/
def failingRegistry : api.Client :=
  fun service tag passingOnly lastIndex =>
    if service = "down" then { services := [], meta := none, err := some "connection refused" }
    else steadyRegistry service tag passingOnly lastIndex

/-- The registry of `TestResolver` (`consul_test.go`, lines 35-58): the name
`service` has two instances, the name `another-service` has one. -/
def testRegistry : api.Client :=
  fun service _ _ _ =>
    if service = "service" then
      { services := [{ Node := { Address := "127.0.0.1" },
                       Service := { Address := "192.168.1.100", Port := 16384 } },
                     { Node := { Address := "127.0.0.1" },
                       Service := { Address := "192.168.1.101", Port := 16385 } }],
        meta := some { LastIndex := 12 }, err := none }
    else if service = "another-service" then
      { services := [{ Node := { Address := "127.0.0.1" },
                       Service := { Address := "192.168.1.102", Port := 16386 } }],
        meta := some { LastIndex := 12 }, err := none }
    else { services := [], meta := some { LastIndex := 12 }, err := none }

/-- The run of `TestResolver` (lines 63-94): a demultiplexer, a resolver for
`service` and one for `another-service`, one poll cycle, then `Next()` on each
resolver; the result is the two values `updates` and `updatesa` with their
errors. -/
def TestResolver :
    Outcome ((List naming.Update × Option String) × (List naming.Update × Option String)) :=
  let sd := StreamDemux.NewStreamDemux
  let r := StreamDemux.NewResolver sd "service" ""
  let ra := StreamDemux.NewResolver r.1 "another-service" ""
  (StreamDemux.getInstances testRegistry ra.1).bind fun w =>
    (w.Next r.2).bind fun updates =>
      (updates.2.Next ra.2).bind fun updatesa =>
        Outcome.ok (updates.1, updatesa.1)

/-! ## Runs of one resolver, and the consumer's view of its batches -/

/-- The consumer applies one update to its address set: `Add` inserts the
address, `Delete` removes it. -/
def applyUpdate (addrs : List String) (u : naming.Update) : List String :=
  match u.Op with
  | naming.Operation.Add => if u.Addr ∈ addrs then addrs else addrs ++ [u.Addr]
  | naming.Operation.Delete => addrs.filter (fun a => decide (a ≠ u.Addr))

/-- The address set the consumer holds after applying the given batches in
order, starting from the empty set. -/
def replay (batches : List (List naming.Update)) : List String :=
  batches.foldl (fun addrs batch => batch.foldl applyUpdate addrs) []

/-- What happens to one resolver: the demultiplexer hands it a snapshot, or
its consumer calls `Next()`. -/
inductive ResolverEvent where
  | feed (newInstances : List String)
  | next
  deriving DecidableEq, Repr

/-- The batch a parked goroutine is about to queue, if any. -/
def ResolverProc.pendingBatch (p : ResolverProc) : List (List naming.Update) :=
  match p.pending with
  | some (updates, _) => [updates]
  | none => []

/-- Runs the events in order on resolver `p`; `out` collects the batches
`Next()` has returned. An event that blocks stops the run. -/
def run : List ResolverEvent → ResolverProc → List (List naming.Update) →
    Outcome (ResolverProc × List (List naming.Update))
  | [], p, out => Outcome.ok (p, out)
  | ResolverEvent.feed newInstances :: rest, p, out =>
    (p.deliver newInstances).bind fun p1 => run rest p1 out
  | ResolverEvent.next :: rest, p, out =>
    p.Next.bind fun res => run rest res.2 (out ++ [res.1.1])

/-- The last snapshot fed by the events, `last` when they feed none. -/
def lastFed (last : List String) (acts : List ResolverEvent) : List String :=
  acts.foldl (fun l a => match a with
    | ResolverEvent.feed newInstances => newInstances
    | ResolverEvent.next => l) last

/-- The snapshots the events feed, in order. -/
def feeds (acts : List ResolverEvent) : List (List String) :=
  acts.filterMap (fun a => match a with
    | ResolverEvent.feed newInstances => some newInstances
    | ResolverEvent.next => none)

/-- The run in which the snapshots are fed one after the other and the
consumer calls `Next()` as soon as a batch has been queued; `prev` is the
snapshot fed last. -/
def eagerConsumer (prev : List String) : List (List String) → List ResolverEvent
  | [] => []
  | newInstances :: rest =>
    ResolverEvent.feed newInstances ::
      ((if ConsulResolver.makeUpdates prev newInstances = [] then [] else [ResolverEvent.next]) ++
        eagerConsumer newInstances rest)

/-- The invariant of a run on an open resolver whose last snapshot fed is
`last`: the batches returned and buffered replay to the stored instances; a
goroutine that has completed its iteration has stored `last`, a parked one
holds the diff of the stored instances against `last` behind a full buffer. -/
def RunInv (p : ResolverProc) (out : List (List naming.Update)) (last : List String) : Prop :=
  p.r.updatesc.closed = false ∧ p.r.updatesc.cap = 1 ∧ p.r.updatesc.buf.length ≤ 1 ∧
  (∀ x, x ∈ replay (out ++ p.r.updatesc.buf) ↔ x ∈ p.r.instances) ∧
  match p.pending with
  | none => p.r.instances = last
  | some (updates, newInstances) =>
    newInstances = last ∧ updates = ConsulResolver.makeUpdates p.r.instances newInstances ∧
    p.r.updatesc.buf.length = 1

/-- A run in which the second snapshot arrives before the consumer has taken
the first batch: the goroutine parks on its send until the first `Next()`. -/
def exampleRun : List ResolverEvent :=
  [ResolverEvent.feed ["10.0.0.1:80", "10.0.0.2:80"],
   ResolverEvent.feed ["10.0.0.2:80", "10.0.0.3:80"],
   ResolverEvent.next,
   ResolverEvent.next]

/-! ## Subscriptions -/

/-- The service name resolver `i` was created for. -/
def World.serviceOf (w : World) (i : Nat) : Option String :=
  (w.resolvers[i]?).map (fun p => p.r.service)

/-- What `NewStreamDemux`, `NewResolver`, `getInstances`, `Next` and `Close`
maintain: the keys of `services` are distinct, the channels listed under a
name are, without repetition, those of the resolvers created for that name,
and the name of every resolver is a key of `services`. -/
def World.WF (w : World) : Prop :=
  (w.sd.services.map Prod.fst).Nodup ∧
  (∀ e ∈ w.sd.services, e.2.channels.Nodup ∧
    (∀ i ∈ e.2.channels, w.serviceOf i = some e.1) ∧
    (∀ i < w.resolvers.length, w.serviceOf i = some e.1 → i ∈ e.2.channels)) ∧
  (∀ i < w.resolvers.length, ∃ e ∈ w.sd.services, w.serviceOf i = some e.1)

instance World.decidableWF (w : World) : Decidable w.WF := by
  unfold World.WF
  infer_instance

theorem ConsulResolver.mem_makeUpdates (old new : List String) (u : naming.Update) :
    u ∈ ConsulResolver.makeUpdates old new ↔
      (u.Op = naming.Operation.Add ∧ u.Addr ∈ new ∧ u.Addr ∉ old) ∨
      (u.Op = naming.Operation.Delete ∧ u.Addr ∈ old ∧ u.Addr ∉ new) := by
  obtain ⟨op, a⟩ := u
  simp only [ConsulResolver.makeUpdates, addrSet, List.nil_append, List.mem_append,
    List.mem_map, List.mem_filter, List.mem_dedup, decide_eq_true_eq]
  constructor
  · rintro (⟨x, ⟨h1, h2⟩, h3⟩ | ⟨x, ⟨h1, h2⟩, h3⟩)
    · cases h3
      exact Or.inl ⟨rfl, h1, h2⟩
    · cases h3
      exact Or.inr ⟨rfl, h1, h2⟩
  · rintro (⟨h1, h2, h3⟩ | ⟨h1, h2, h3⟩)
    · exact Or.inl ⟨a, ⟨h2, h3⟩, by cases h1; rfl⟩
    · exact Or.inr ⟨a, ⟨h2, h3⟩, by cases h1; rfl⟩

theorem ConsulResolver.makeUpdates_nodup (old new : List String) :
    (ConsulResolver.makeUpdates old new).Nodup := by
  simp only [ConsulResolver.makeUpdates, addrSet, List.nil_append]
  rw [List.nodup_append]
  refine ⟨?_, ?_, ?_⟩
  · refine List.Nodup.map ?_ ((List.nodup_dedup new).filter _)
    intro a b h
    simpa using h
  · refine List.Nodup.map ?_ ((List.nodup_dedup old).filter _)
    intro a b h
    simpa using h
  · intro u h1 h2
    simp only [List.mem_map] at h1 h2
    obtain ⟨a, _, rfl⟩ := h1
    obtain ⟨b, _, hb⟩ := h2
    cases hb

theorem ConsulResolver.makeUpdates_eq_nil_iff (old new : List String) :
    ConsulResolver.makeUpdates old new = [] ↔ ∀ x, x ∈ new ↔ x ∈ old := by
  rw [List.eq_nil_iff_forall_not_mem]
  constructor
  · intro h x
    have h1 := h ⟨naming.Operation.Add, x⟩
    have h2 := h ⟨naming.Operation.Delete, x⟩
    rw [ConsulResolver.mem_makeUpdates] at h1 h2
    simp at h1 h2
    exact ⟨h1, h2⟩
  · intro h u
    rw [ConsulResolver.mem_makeUpdates]
    rintro (⟨_, h2, h3⟩ | ⟨_, h2, h3⟩)
    · exact h3 ((h _).1 h2)
    · exact h3 ((h _).2 h2)

theorem ConsulResolver.makeUpdates_nil_left (new : List String) :
    ConsulResolver.makeUpdates [] new =
      new.dedup.map (fun addr => { Op := naming.Operation.Add, Addr := addr }) := by
  simp [ConsulResolver.makeUpdates, addrSet]

theorem Resolver.makeUpdates_eq (r : Resolver) (newInstances : List String) :
    Resolver.makeUpdates r newInstances =
      if (ConsulResolver.makeUpdates r.instances newInstances).length > 0 then
        Resolver.sendUpdates r (ConsulResolver.makeUpdates r.instances newInstances) newInstances
      else Outcome.ok { r := { r with instances := newInstances }, pending := none } := rfl

/-- In whatever order Go visits the keys of the two maps, the batch is a
rearrangement of the batch of the model. -/
theorem ConsulResolver.makeUpdatesRanging_perm (rangeNew rangeOld old new : List String)
    (hnew : rangeNew.Perm (addrSet new)) (hold : rangeOld.Perm (addrSet old)) :
    (ConsulResolver.makeUpdatesRanging rangeNew rangeOld old new).Perm
      (ConsulResolver.makeUpdates old new) := by
  simp only [ConsulResolver.makeUpdatesRanging, ConsulResolver.makeUpdates, List.nil_append]
  exact ((hnew.filter _).map _).append ((hold.filter _).map _)

theorem ConsulResolver.makeUpdates_eq_ranging (old new : List String) :
    ConsulResolver.makeUpdates old new =
      ConsulResolver.makeUpdatesRanging (addrSet new) (addrSet old) old new := rfl

/-- C1. Diff correctness: an update is in `makeUpdates old new` exactly when it
is `Add x` with `x` in `new` and not in `old`, or `Delete x` with `x` in `old`
and not in `new`; `makeUpdates A A` is empty; and the batch one iteration of
`Resolver.makeUpdates` hands to its send is that same diff of `r.instances`
against the snapshot received. -/
theorem makeUpdates_diff_correct (old new : List String) :
    (∀ x : String,
      (⟨naming.Operation.Add, x⟩ ∈ ConsulResolver.makeUpdates old new ↔ x ∈ new ∧ x ∉ old) ∧
      (⟨naming.Operation.Delete, x⟩ ∈ ConsulResolver.makeUpdates old new ↔ x ∈ old ∧ x ∉ new)) ∧
    (∀ u : naming.Update, u ∈ ConsulResolver.makeUpdates old new →
      (u.Op = naming.Operation.Add ∧ u.Addr ∈ new ∧ u.Addr ∉ old) ∨
      (u.Op = naming.Operation.Delete ∧ u.Addr ∈ old ∧ u.Addr ∉ new)) ∧
    ConsulResolver.makeUpdates old old = [] ∧
    (∀ r : Resolver, ∃ updates : List naming.Update,
      (∀ x : String,
        (⟨naming.Operation.Add, x⟩ ∈ updates ↔ x ∈ new ∧ x ∉ r.instances) ∧
        (⟨naming.Operation.Delete, x⟩ ∈ updates ↔ x ∈ r.instances ∧ x ∉ new)) ∧
      (∀ u : naming.Update, u ∈ updates →
        (u.Op = naming.Operation.Add ∧ u.Addr ∈ new ∧ u.Addr ∉ r.instances) ∨
        (u.Op = naming.Operation.Delete ∧ u.Addr ∈ r.instances ∧ u.Addr ∉ new)) ∧
      ((∀ x, x ∈ new ↔ x ∈ r.instances) → updates = []) ∧
      Resolver.makeUpdates r new =
        if updates.length > 0 then Resolver.sendUpdates r updates new
        else Outcome.ok { r := { r with instances := new }, pending := none }) := by
  refine ⟨fun x => ⟨?_, ?_⟩, fun u hu => (ConsulResolver.mem_makeUpdates old new u).1 hu,
    (ConsulResolver.makeUpdates_eq_nil_iff old old).2 (fun _ => Iff.rfl), fun r => ?_⟩
  · rw [ConsulResolver.mem_makeUpdates]; simp
  · rw [ConsulResolver.mem_makeUpdates]; simp
  · refine ⟨ConsulResolver.makeUpdates r.instances new, fun x => ⟨?_, ?_⟩,
      fun u hu => (ConsulResolver.mem_makeUpdates _ _ u).1 hu,
      (ConsulResolver.makeUpdates_eq_nil_iff _ _).2, Resolver.makeUpdates_eq r new⟩
    · rw [ConsulResolver.mem_makeUpdates]; simp
    · rw [ConsulResolver.mem_makeUpdates]; simp

theorem makeUpdates_diff_correct_witness :
    ((⟨naming.Operation.Add, "10.0.0.3:80"⟩ : naming.Update) ∈
        ConsulResolver.makeUpdates ["10.0.0.1:80", "10.0.0.2:80", "10.0.0.1:80"]
          ["10.0.0.3:80", "10.0.0.2:80"] ↔
      "10.0.0.3:80" ∈ ["10.0.0.3:80", "10.0.0.2:80"] ∧
        "10.0.0.3:80" ∉ ["10.0.0.1:80", "10.0.0.2:80", "10.0.0.1:80"]) ∧
    ConsulResolver.makeUpdates ["10.0.0.1:80", "10.0.0.2:80", "10.0.0.1:80"]
        ["10.0.0.3:80", "10.0.0.2:80"] =
      [⟨naming.Operation.Add, "10.0.0.3:80"⟩, ⟨naming.Operation.Delete, "10.0.0.1:80"⟩] :=
  ⟨((makeUpdates_diff_correct ["10.0.0.1:80", "10.0.0.2:80", "10.0.0.1:80"]
      ["10.0.0.3:80", "10.0.0.2:80"]).1 "10.0.0.3:80").1, by decide⟩

/-! ## `Next` and `Close` -/

theorem ConsulResolver.Next_never_errs (r r2 : ConsulResolver)
    (res : List naming.Update × Option String)
    (h : ConsulResolver.Next r = Outcome.ok (res, r2)) : res.2 = none := by
  unfold ConsulResolver.Next at h
  cases hr : r.updatesc.recv [] <;> rw [hr] at h <;> simp [Outcome.bind] at h
  rw [← h.1]

theorem Resolver.Next_err (r r2 : Resolver)
    (res : List naming.Update × Option String)
    (h : Resolver.Next r = Outcome.ok (res, r2)) : res.2 = none := by
  unfold Resolver.Next at h
  cases hr : r.updatesc.recv [] <;> rw [hr] at h <;> simp [Outcome.bind] at h
  rw [← h.1]

theorem ConsulResolver.Next_on_closed (r : ConsulResolver) (h : r.updatesc.closed = true) :
    ∃ batch r2, ConsulResolver.Next r = Outcome.ok ((batch, none), r2) ∧
      r2.updatesc.closed = true ∧ r2.quitc = r.quitc ∧
      (r.updatesc.buf = [] → batch = [] ∧ r2 = r) := by
  obtain ⟨sv, tg, po, q, ⟨cap, buf, cl⟩⟩ := r
  simp only at h
  subst h
  cases buf with
  | nil => exact ⟨[], _, rfl, rfl, rfl, fun _ => ⟨rfl, rfl⟩⟩
  | cons b rest => exact ⟨b, _, rfl, rfl, rfl, fun h => by cases h⟩

theorem Resolver.Next_closed (r : Resolver) (h : r.updatesc.closed = true) :
    ∃ batch r2, Resolver.Next r = Outcome.ok ((batch, none), r2) ∧
      r2.updatesc.closed = true ∧ r2.quitc = r.quitc ∧
      (r.updatesc.buf = [] → batch = [] ∧ r2 = r) := by
  obtain ⟨sv, tg, ins, q, ⟨cap, buf, cl⟩⟩ := r
  simp only at h
  subst h
  cases buf with
  | nil => exact ⟨[], _, rfl, rfl, rfl, fun _ => ⟨rfl, rfl⟩⟩
  | cons b rest => exact ⟨b, _, rfl, rfl, rfl, fun h => by cases h⟩

theorem ConsulResolver.Close_completes (r : ConsulResolver) (h : r.Inv) :
    ∃ r1, ConsulResolver.Close r = Outcome.ok r1 ∧ r1.Inv ∧
      r1.quitc.closed = true ∧ r1.updatesc.closed = true ∧
      r1.updatesc.buf = r.updatesc.buf ∧ ConsulResolver.Close r1 = Outcome.ok r1 := by
  obtain ⟨sv, tg, po, ⟨qcap, qbuf, qcl⟩, ⟨cap, buf, cl⟩⟩ := r
  obtain ⟨h1, h2⟩ := h
  simp only at h1 h2
  subst h1 h2
  cases qcl
  · exact ⟨_, rfl, ⟨rfl, rfl⟩, rfl, rfl, rfl, rfl⟩
  · exact ⟨_, rfl, ⟨rfl, rfl⟩, rfl, rfl, rfl, rfl⟩

theorem Resolver.Close_spec (r : Resolver) (h : r.Inv) :
    ∃ r1, Resolver.Close r = Outcome.ok r1 ∧ r1.Inv ∧
      r1.quitc.closed = true ∧ r1.updatesc.closed = true ∧
      r1.updatesc.buf = r.updatesc.buf ∧ r1.instances = r.instances ∧
      Resolver.Close r1 = Outcome.ok r1 := by
  obtain ⟨sv, tg, ins, ⟨qcap, qbuf, qcl⟩, ⟨cap, buf, cl⟩⟩ := r
  obtain ⟨h1, h2⟩ := h
  simp only at h1 h2
  subst h1 h2
  cases qcl
  · exact ⟨_, rfl, ⟨rfl, rfl⟩, rfl, rfl, rfl, rfl, rfl⟩
  · exact ⟨_, rfl, ⟨rfl, rfl⟩, rfl, rfl, rfl, rfl, rfl⟩

theorem ConsulResolver.Close_again (r r1 : ConsulResolver) (hq : r.quitc.buf = [])
    (h : ConsulResolver.Close r = Outcome.ok r1) : ConsulResolver.Close r1 = Outcome.ok r1 := by
  obtain ⟨sv, tg, po, ⟨qcap, qbuf, qcl⟩, ⟨cap, buf, cl⟩⟩ := r
  simp only at hq
  subst hq
  cases qcl <;> cases cl <;>
    simp [ConsulResolver.Close, Chan.recv, Chan.close, Outcome.bind] at h <;>
    subst h <;> rfl

theorem Resolver.Close_twice (r r1 : Resolver) (hq : r.quitc.buf = [])
    (h : Resolver.Close r = Outcome.ok r1) : Resolver.Close r1 = Outcome.ok r1 := by
  obtain ⟨sv, tg, ins, ⟨qcap, qbuf, qcl⟩, ⟨cap, buf, cl⟩⟩ := r
  simp only at hq
  subst hq
  cases qcl <;> cases cl <;>
    simp [Resolver.Close, Chan.recv, Chan.close, Outcome.bind] at h <;>
    subst h <;> rfl

/-- C8. Close is idempotent: for both watcher types, a second `Close()` after
a completed first one completes as well and leaves exactly the state the first
one produced; and from every state the constructors and methods maintain, the
first `Close()` completes. -/
theorem close_idempotent :
    (∀ r r1 : ConsulResolver, r.quitc.buf = [] → ConsulResolver.Close r = Outcome.ok r1 →
      ConsulResolver.Close r1 = Outcome.ok r1) ∧
    (∀ r r1 : Resolver, r.quitc.buf = [] → Resolver.Close r = Outcome.ok r1 →
      Resolver.Close r1 = Outcome.ok r1) ∧
    (∀ r : ConsulResolver, r.Inv →
      ∃ r1, ConsulResolver.Close r = Outcome.ok r1 ∧ ConsulResolver.Close r1 = Outcome.ok r1) ∧
    (∀ r : Resolver, r.Inv →
      ∃ r1, Resolver.Close r = Outcome.ok r1 ∧ Resolver.Close r1 = Outcome.ok r1) := by
  refine ⟨ConsulResolver.Close_again, Resolver.Close_twice, fun r h => ?_, fun r h => ?_⟩
  · obtain ⟨r1, h1, _, _, _, _, h2⟩ := ConsulResolver.Close_completes r h
    exact ⟨r1, h1, h2⟩
  · obtain ⟨r1, h1, _, _, _, _, _, h2⟩ := Resolver.Close_spec r h
    exact ⟨r1, h1, h2⟩

theorem close_idempotent_witness :
    (ResolverProc.fresh "svc" "").r.quitc.buf = [] ∧
    Resolver.Close (ResolverProc.fresh "svc" "").r =
      Outcome.ok { service := "svc", tag := "", instances := [],
                   quitc := { cap := 0, buf := [], closed := true },
                   updatesc := { cap := 1, buf := [], closed := true } } ∧
    Resolver.Close { service := "svc", tag := "", instances := [],
                     quitc := { cap := 0, buf := [], closed := true },
                     updatesc := { cap := 1, buf := [], closed := true } } =
      Outcome.ok { service := "svc", tag := "", instances := [],
                   quitc := { cap := 0, buf := [], closed := true },
                   updatesc := { cap := 1, buf := [], closed := true } } :=
  ⟨rfl, rfl, close_idempotent.2.1 (ResolverProc.fresh "svc" "").r _ rfl rfl⟩

/-- C3 fails on the code: on a fresh watcher of either type, `Close()` followed
by `Next()` returns the nil batch with a nil error, where the doc comment of
both `Next` methods has an error returned when the watcher cannot recover. -/
theorem next_after_close_error_is_nil :
    (ConsulResolver.Close
        { service := "svc", tag := "", passingOnly := true,
          quitc := { cap := 0, buf := [], closed := false },
          updatesc := { cap := 1, buf := [], closed := false } }).bind ConsulResolver.Next =
      Outcome.ok (([], none),
        { service := "svc", tag := "", passingOnly := true,
          quitc := { cap := 0, buf := [], closed := true },
          updatesc := { cap := 1, buf := [], closed := true } }) ∧
    (Resolver.Close (ResolverProc.fresh "svc" "").r).bind Resolver.Next =
      Outcome.ok (([], none),
        { service := "svc", tag := "", instances := [],
          quitc := { cap := 0, buf := [], closed := true },
          updatesc := { cap := 1, buf := [], closed := true } }) := by
  decide

/-- C5 fails on the code: `NewConsulResolver` on an empty initial membership
queues the empty batch and `Next()` returns it; and on a registry that keeps
answering `10.0.0.1:80`, after the first batch has been taken, `updater` queues
the empty batch. -/
theorem consulResolver_queues_empty_batch :
    ConsulResolver.NewConsulResolver emptyRegistry "svc" "" =
      Outcome.ok (Sum.inr
        ({ service := "svc", tag := "", passingOnly := true,
           quitc := { cap := 0, buf := [], closed := false },
           updatesc := { cap := 1, buf := [[]], closed := false } },
         { oldInstances := [], lastIndex := 1 })) ∧
    ConsulResolver.Next
        { service := "svc", tag := "", passingOnly := true,
          quitc := { cap := 0, buf := [], closed := false },
          updatesc := { cap := 1, buf := [[]], closed := false } } =
      Outcome.ok (([], none),
        { service := "svc", tag := "", passingOnly := true,
          quitc := { cap := 0, buf := [], closed := false },
          updatesc := { cap := 1, buf := [], closed := false } }) ∧
    ConsulResolver.NewConsulResolver steadyRegistry "svc" "" =
      Outcome.ok (Sum.inr
        ({ service := "svc", tag := "", passingOnly := true,
           quitc := { cap := 0, buf := [], closed := false },
           updatesc := { cap := 1, buf := [[⟨naming.Operation.Add, "10.0.0.1:80"⟩]],
                         closed := false } },
         { oldInstances := ["10.0.0.1:80"], lastIndex := 1 })) ∧
    ConsulResolver.Next
        { service := "svc", tag := "", passingOnly := true,
          quitc := { cap := 0, buf := [], closed := false },
          updatesc := { cap := 1, buf := [[⟨naming.Operation.Add, "10.0.0.1:80"⟩]],
                        closed := false } } =
      Outcome.ok (([⟨naming.Operation.Add, "10.0.0.1:80"⟩], none),
        { service := "svc", tag := "", passingOnly := true,
          quitc := { cap := 0, buf := [], closed := false },
          updatesc := { cap := 1, buf := [], closed := false } }) ∧
    ConsulResolver.updater steadyRegistry
        { service := "svc", tag := "", passingOnly := true,
          quitc := { cap := 0, buf := [], closed := false },
          updatesc := { cap := 1, buf := [], closed := false } }
        { oldInstances := ["10.0.0.1:80"], lastIndex := 1 } =
      Outcome.ok
        ({ service := "svc", tag := "", passingOnly := true,
           quitc := { cap := 0, buf := [], closed := false },
           updatesc := { cap := 1, buf := [[]], closed := false } },
         { oldInstances := ["10.0.0.1:80"], lastIndex := 2 }) := by
  decide

/-- C7 fails on the code: after `Close()` the goroutine of a `Resolver` still
takes a snapshot from its input channel and diffs it; a non-empty diff is sent
on the closed `updatesc`, which panics, and an empty diff overwrites
`instances`. -/
theorem resolver_diffs_after_close :
    Resolver.Close (ResolverProc.fresh "svc" "").r =
      Outcome.ok { service := "svc", tag := "", instances := [],
                   quitc := { cap := 0, buf := [], closed := true },
                   updatesc := { cap := 1, buf := [], closed := true } } ∧
    ResolverProc.deliver
        { r := { service := "svc", tag := "", instances := [],
                 quitc := { cap := 0, buf := [], closed := true },
                 updatesc := { cap := 1, buf := [], closed := true } },
          pending := none } ["10.0.0.1:80"] = Outcome.panicked ∧
    ResolverProc.deliver
        { r := { service := "svc", tag := "", instances := ["10.0.0.1:80", "10.0.0.2:80"],
                 quitc := { cap := 0, buf := [], closed := true },
                 updatesc := { cap := 1, buf := [], closed := true } },
          pending := none } ["10.0.0.2:80", "10.0.0.1:80"] =
      Outcome.ok
        { r := { service := "svc", tag := "", instances := ["10.0.0.2:80", "10.0.0.1:80"],
                 quitc := { cap := 0, buf := [], closed := true },
                 updatesc := { cap := 1, buf := [], closed := true } },
          pending := none } := by
  decide

/-! ## One iteration of `Resolver.makeUpdates` -/

theorem Resolver.sendUpdates_ne_store (r : Resolver) (updates : List naming.Update)
    (S : List String) :
    Resolver.sendUpdates r updates S ≠
      Outcome.ok { r := { r with instances := S }, pending := none } := by
  obtain ⟨sv, tg, ins, q, ⟨cap, buf, cl⟩⟩ := r
  unfold Resolver.sendUpdates Chan.send
  cases cl
  · by_cases hlen : buf.length < cap <;> simp [hlen]
  · simp

theorem Resolver.sendUpdates_room (r : Resolver) (updates : List naming.Update)
    (S : List String) (hc : r.updatesc.closed = false)
    (hlen : r.updatesc.buf.length < r.updatesc.cap) :
    Resolver.sendUpdates r updates S =
      Outcome.ok { r := { r with instances := S,
                                 updatesc := { r.updatesc with buf := r.updatesc.buf ++ [updates] } },
                   pending := none } := by
  obtain ⟨sv, tg, ins, q, ⟨cap, buf, cl⟩⟩ := r
  simp only at hc hlen
  subst hc
  simp [Resolver.sendUpdates, Chan.send, hlen]

theorem Resolver.makeUpdates_same_set (r : Resolver) (S : List String)
    (h : ∀ x, x ∈ S ↔ x ∈ r.instances) :
    Resolver.makeUpdates r S =
      Outcome.ok { r := { r with instances := S }, pending := none } := by
  rw [Resolver.makeUpdates_eq, (ConsulResolver.makeUpdates_eq_nil_iff _ _).2 h]
  rfl

theorem Resolver.makeUpdates_of_ne_nil (r : Resolver) (S : List String)
    (h : ConsulResolver.makeUpdates r.instances S ≠ []) :
    Resolver.makeUpdates r S =
      Resolver.sendUpdates r (ConsulResolver.makeUpdates r.instances S) S := by
  rw [Resolver.makeUpdates_eq, if_pos (List.length_pos.2 h)]

/-- C6. Idempotence of the empty delta in `Resolver.makeUpdates`: a snapshot
with the address set of `r.instances` sends nothing and only stores the
snapshot, in every state of the resolver; the iteration sends nothing exactly
when the diff is empty, and a non-empty diff is handed to the send; hence the
same snapshot twice in a row, and the empty snapshot on a fresh resolver, send
nothing; with room in an open `updatesc` the batches queued grow by the diff
when it is non-empty and not at all when it is empty. -/
theorem empty_delta_sends_nothing (r : Resolver) (S : List String) :
    ((∀ x, x ∈ S ↔ x ∈ r.instances) →
      Resolver.makeUpdates r S =
        Outcome.ok { r := { r with instances := S }, pending := none }) ∧
    (Resolver.makeUpdates r S =
        Outcome.ok { r := { r with instances := S }, pending := none } ↔
      ConsulResolver.makeUpdates r.instances S = []) ∧
    (ConsulResolver.makeUpdates r.instances S ≠ [] →
      Resolver.makeUpdates r S =
        Resolver.sendUpdates r (ConsulResolver.makeUpdates r.instances S) S) ∧
    (∀ p1 : ResolverProc, Resolver.makeUpdates r S = Outcome.ok p1 → p1.pending = none →
      Resolver.makeUpdates p1.r S = Outcome.ok p1) ∧
    (∀ service tag : String,
      (ResolverProc.fresh service tag).deliver [] = Outcome.ok (ResolverProc.fresh service tag)) ∧
    (r.updatesc.closed = false → r.updatesc.buf.length < r.updatesc.cap →
      Resolver.makeUpdates r S =
        Outcome.ok
          { r := { r with
                   instances := S,
                   updatesc := { r.updatesc with
                     buf := r.updatesc.buf ++
                       (if ConsulResolver.makeUpdates r.instances S = [] then []
                        else [ConsulResolver.makeUpdates r.instances S]) } },
            pending := none }) := by
  refine ⟨Resolver.makeUpdates_same_set r S, ⟨fun h => ?_, fun h => ?_⟩,
    Resolver.makeUpdates_of_ne_nil r S, fun p1 h1 h2 => ?_, fun _ _ => rfl, fun hc hlen => ?_⟩
  · by_contra hne
    rw [Resolver.makeUpdates_of_ne_nil r S hne] at h
    exact Resolver.sendUpdates_ne_store _ _ _ h
  · exact Resolver.makeUpdates_same_set r S ((ConsulResolver.makeUpdates_eq_nil_iff _ _).1 h)
  · have hinst : p1.r.instances = S := by
      by_cases hd : ConsulResolver.makeUpdates r.instances S = []
      · rw [Resolver.makeUpdates_same_set r S ((ConsulResolver.makeUpdates_eq_nil_iff _ _).1 hd)] at h1
        cases h1
        rfl
      · rw [Resolver.makeUpdates_of_ne_nil r S hd] at h1
        unfold Resolver.sendUpdates at h1
        cases hs : r.updatesc.send (ConsulResolver.makeUpdates r.instances S) with
        | ok ch => rw [hs] at h1; cases h1; rfl
        | blocked => rw [hs] at h1; cases h1; cases h2
        | panicked => rw [hs] at h1; cases h1
    have := Resolver.makeUpdates_same_set p1.r S (by rw [hinst]; exact fun _ => Iff.rfl)
    rw [this]
    obtain ⟨⟨sv, tg, ins, q, ch⟩, pd⟩ := p1
    simp only at hinst h2
    subst hinst h2
    rfl
  · by_cases hd : ConsulResolver.makeUpdates r.instances S = []
    · rw [Resolver.makeUpdates_same_set r S ((ConsulResolver.makeUpdates_eq_nil_iff _ _).1 hd)]
      simp [hd]
    · rw [Resolver.makeUpdates_of_ne_nil r S hd, Resolver.sendUpdates_room r _ S hc hlen]
      simp [hd]

theorem empty_delta_sends_nothing_witness :
    (∀ x, x ∈ ["10.0.0.2:80", "10.0.0.1:80", "10.0.0.2:80"] ↔
      x ∈ ({ service := "svc", tag := "", instances := ["10.0.0.1:80", "10.0.0.2:80"],
             quitc := { cap := 0, buf := [], closed := false },
             updatesc := { cap := 1, buf := [], closed := false } } : Resolver).instances) ∧
    Resolver.makeUpdates
        { service := "svc", tag := "", instances := ["10.0.0.1:80", "10.0.0.2:80"],
          quitc := { cap := 0, buf := [], closed := false },
          updatesc := { cap := 1, buf := [], closed := false } }
        ["10.0.0.2:80", "10.0.0.1:80", "10.0.0.2:80"] =
      Outcome.ok
        { r := { service := "svc", tag := "",
                 instances := ["10.0.0.2:80", "10.0.0.1:80", "10.0.0.2:80"],
                 quitc := { cap := 0, buf := [], closed := false },
                 updatesc := { cap := 1, buf := [], closed := false } },
          pending := none } :=
  ⟨by simp,
   (empty_delta_sends_nothing
      { service := "svc", tag := "", instances := ["10.0.0.1:80", "10.0.0.2:80"],
        quitc := { cap := 0, buf := [], closed := false },
        updatesc := { cap := 1, buf := [], closed := false } }
      ["10.0.0.2:80", "10.0.0.1:80", "10.0.0.2:80"]).1 (by simp)⟩

/-! ## Bootstrap -/

theorem StreamDemux.NewResolver_resolver (w : World) (service tag : String) :
    (StreamDemux.NewResolver w service tag).1.resolvers[(StreamDemux.NewResolver w service tag).2]? =
      some (ResolverProc.fresh service tag) := by
  simp [StreamDemux.NewResolver, ResolverProc.fresh]

/-- C2. Bootstrap completeness: the resolver `NewResolver` creates, handed a
non-empty first snapshot `S`, queues one batch, which `Next()` returns with a
nil error; the batch holds `Add x` exactly for the addresses `x` of `S`, no
`Delete`, no update twice, and as many updates as `S` has distinct addresses.
In the scenario of `TestResolver` the first batch of `service` is the two
`Add` of `192.168.1.100:16384` and `192.168.1.101:16385`, that of
`another-service` the one `Add` of `192.168.1.102:16386`. -/
theorem bootstrap_completeness :
    (∀ (w : World) (service tag : String) (S : List String), S ≠ [] →
      ∃ (batch : List naming.Update) (p1 p2 : ResolverProc),
        (StreamDemux.NewResolver w service tag).1.resolvers[(StreamDemux.NewResolver w service tag).2]? =
          some (ResolverProc.fresh service tag) ∧
        (ResolverProc.fresh service tag).deliver S = Outcome.ok p1 ∧
        p1.pending = none ∧ p1.r.updatesc.buf = [batch] ∧ p1.r.instances = S ∧
        (∀ x, ⟨naming.Operation.Add, x⟩ ∈ batch ↔ x ∈ S) ∧
        (∀ u ∈ batch, u.Op = naming.Operation.Add) ∧
        batch.Nodup ∧
        batch.length = S.dedup.length ∧ batch.length = S.toFinset.card ∧
        p1.Next = Outcome.ok ((batch, none), p2)) ∧
    TestResolver =
      Outcome.ok
        (([⟨naming.Operation.Add, "192.168.1.100:16384"⟩,
           ⟨naming.Operation.Add, "192.168.1.101:16385"⟩], none),
         ([⟨naming.Operation.Add, "192.168.1.102:16386"⟩], none)) := by
  refine ⟨fun w service tag S hS => ?_, by decide⟩
  have hne : ConsulResolver.makeUpdates [] S ≠ [] := by
    rw [ConsulResolver.makeUpdates_nil_left]
    cases S with
    | nil => exact absurd rfl hS
    | cons a t =>
      intro h
      have : a ∈ (a :: t).dedup := List.mem_dedup.2 (List.mem_cons_self a t)
      have h2 := List.mem_map_of_mem
        (fun addr => ({ Op := naming.Operation.Add, Addr := addr } : naming.Update)) this
      rw [h] at h2
      cases h2
  have hdel : (ResolverProc.fresh service tag).deliver S =
      Outcome.ok
        { r := { (ResolverProc.fresh service tag).r with
                 instances := S,
                 updatesc := { (ResolverProc.fresh service tag).r.updatesc with
                   buf := [ConsulResolver.makeUpdates [] S] } },
          pending := none } := by
    show Resolver.makeUpdates (ResolverProc.fresh service tag).r S = _
    rw [Resolver.makeUpdates_of_ne_nil _ _ hne,
      Resolver.sendUpdates_room (ResolverProc.fresh service tag).r _ S rfl Nat.zero_lt_one]
    rfl
  refine ⟨ConsulResolver.makeUpdates [] S, _, _, StreamDemux.NewResolver_resolver w service tag,
    hdel, rfl, rfl, rfl, fun x => ?_, fun u hu => ?_, ConsulResolver.makeUpdates_nodup _ _,
    ?_, ?_, rfl⟩
  · rw [ConsulResolver.mem_makeUpdates]; simp
  · rw [ConsulResolver.mem_makeUpdates] at hu
    rcases hu with ⟨h, _⟩ | ⟨_, h, _⟩
    · exact h
    · cases h
  · rw [ConsulResolver.makeUpdates_nil_left, List.length_map]
  · rw [ConsulResolver.makeUpdates_nil_left, List.length_map, List.card_toFinset]

theorem bootstrap_completeness_witness :
    ["192.168.1.100:16384", "192.168.1.101:16385"] ≠ [] ∧
    ∃ (batch : List naming.Update) (p1 p2 : ResolverProc),
      (StreamDemux.NewResolver StreamDemux.NewStreamDemux "service" "").1.resolvers[
          (StreamDemux.NewResolver StreamDemux.NewStreamDemux "service" "").2]? =
        some (ResolverProc.fresh "service" "") ∧
      (ResolverProc.fresh "service" "").deliver ["192.168.1.100:16384", "192.168.1.101:16385"] =
        Outcome.ok p1 ∧
      p1.pending = none ∧ p1.r.updatesc.buf = [batch] ∧
      p1.r.instances = ["192.168.1.100:16384", "192.168.1.101:16385"] ∧
      (∀ x, ⟨naming.Operation.Add, x⟩ ∈ batch ↔
        x ∈ ["192.168.1.100:16384", "192.168.1.101:16385"]) ∧
      (∀ u ∈ batch, u.Op = naming.Operation.Add) ∧
      batch.Nodup ∧
      batch.length = ["192.168.1.100:16384", "192.168.1.101:16385"].dedup.length ∧
      batch.length = ["192.168.1.100:16384", "192.168.1.101:16385"].toFinset.card ∧
      p1.Next = Outcome.ok ((batch, none), p2) :=
  ⟨by decide, bootstrap_completeness.1 StreamDemux.NewStreamDemux "service" "" _ (by decide)⟩

/-! ## A failed query in the poll cycle -/

theorem StreamDemux.pollService_nil_meta (c : api.Client) (w : World) (s : String)
    (ic : instanceChannels) (h : (c s "" true ic.lastIndex).meta = none) (w1 : World) :
    StreamDemux.pollService c w s ic ≠ Outcome.ok w1 := by
  unfold StreamDemux.pollService
  simp only [h]
  cases StreamDemux.broadcast (List.map instanceAddr (c s "" true ic.lastIndex).services)
    ic.channels w.resolvers <;> simp [Outcome.bind]

theorem StreamDemux.pollAll_nil_meta (c : api.Client) (entries : List (String × instanceChannels))
    (s : String) (ic : instanceChannels) (hmem : (s, ic) ∈ entries)
    (h : (c s "" true ic.lastIndex).meta = none) (w w1 : World) :
    StreamDemux.pollAll c entries w ≠ Outcome.ok w1 := by
  induction entries generalizing w with
  | nil => cases hmem
  | cons e rest ih =>
    obtain ⟨s0, ic0⟩ := e
    unfold StreamDemux.pollAll
    cases hp : StreamDemux.pollService c w s0 ic0 with
    | blocked => simp [Outcome.bind]
    | panicked => simp [Outcome.bind]
    | ok w2 =>
      simp only [Outcome.bind]
      rcases List.mem_cons.1 hmem with heq | hin
      · cases heq
        exact absurd hp (StreamDemux.pollService_nil_meta c w s ic h w2)
      · exact ih hin w2

/-- Whatever the order in which the entries of `services` are visited, a poll
cycle in which the query of one registered service returns a nil `meta` does
not complete. -/
theorem StreamDemux.getInstances_nil_meta (c : api.Client) (w w1 : World) (s : String)
    (ic : instanceChannels) (hmem : (s, ic) ∈ w.sd.services)
    (h : (c s "" true ic.lastIndex).meta = none) :
    StreamDemux.getInstances c w ≠ Outcome.ok w1 :=
  StreamDemux.pollAll_nil_meta c w.sd.services s ic hmem h w w1

/-- C4 fails on the code: with the services `down` and `up` registered and the
query for `down` failing, the poll cycle panics, in either order of the two
entries, whereas `ConsulResolver.getInstances` returns the same failure as an
error. -/
theorem getInstances_panics_on_failed_query :
    StreamDemux.getInstances failingRegistry
        (StreamDemux.NewResolver
          (StreamDemux.NewResolver StreamDemux.NewStreamDemux "down" "").1 "up" "").1 =
      Outcome.panicked ∧
    StreamDemux.getInstances failingRegistry
        (StreamDemux.NewResolver
          (StreamDemux.NewResolver StreamDemux.NewStreamDemux "up" "").1 "down" "").1 =
      Outcome.panicked ∧
    ConsulResolver.getInstances failingRegistry
        { service := "down", tag := "", passingOnly := true,
          quitc := { cap := 0, buf := [], closed := false },
          updatesc := { cap := 1, buf := [], closed := false } } 0 =
      Outcome.ok ([], 0, some "connection refused") := by
  decide

/-! ## Replaying the batches of a run -/

theorem replay_snoc (batches : List (List naming.Update)) (batch : List naming.Update) :
    replay (batches ++ [batch]) = batch.foldl applyUpdate (replay batches) := by
  simp [replay, List.foldl_append]

theorem mem_foldl_adds (l : List String) (addrs : List String) (x : String) :
    x ∈ (l.map (fun addr => ({ Op := naming.Operation.Add, Addr := addr } : naming.Update))).foldl
        applyUpdate addrs ↔ x ∈ addrs ∨ x ∈ l := by
  induction l generalizing addrs with
  | nil => simp
  | cons a t ih =>
    simp only [List.map_cons, List.foldl_cons, ih, applyUpdate, List.mem_cons]
    by_cases ha : a ∈ addrs
    · simp only [ha, if_true]
      constructor
      · rintro (h | h)
        · exact Or.inl h
        · exact Or.inr (Or.inr h)
      · rintro (h | h | h)
        · exact Or.inl h
        · exact Or.inl (h ▸ ha)
        · exact Or.inr h
    · simp only [ha, if_false, List.mem_append, List.mem_singleton]
      tauto

theorem mem_foldl_deletes (l : List String) (addrs : List String) (x : String) :
    x ∈ (l.map (fun addr => ({ Op := naming.Operation.Delete, Addr := addr } : naming.Update))).foldl
        applyUpdate addrs ↔ x ∈ addrs ∧ x ∉ l := by
  induction l generalizing addrs with
  | nil => simp
  | cons a t ih =>
    simp only [List.map_cons, List.foldl_cons, ih, applyUpdate, List.mem_cons, List.mem_filter,
      decide_eq_true_eq]
    tauto

/-- Applying the diff of `old` against `new` to an address set equal to that
of `old` gives the address set of `new`. -/
theorem mem_foldl_makeUpdates (old new addrs : List String)
    (h : ∀ x, x ∈ addrs ↔ x ∈ old) (x : String) :
    x ∈ (ConsulResolver.makeUpdates old new).foldl applyUpdate addrs ↔ x ∈ new := by
  simp only [ConsulResolver.makeUpdates, addrSet, List.nil_append, List.foldl_append,
    mem_foldl_deletes, mem_foldl_adds, List.mem_filter, List.mem_dedup, decide_eq_true_eq, h]
  tauto

/-- The same for the batch in whatever order Go visits the keys of the two
maps: the consumer ends with the address set of `new`. -/
theorem mem_foldl_makeUpdatesRanging (rangeNew rangeOld old new addrs : List String)
    (hnew : rangeNew.Perm (addrSet new)) (hold : rangeOld.Perm (addrSet old))
    (h : ∀ x, x ∈ addrs ↔ x ∈ old) (x : String) :
    x ∈ (ConsulResolver.makeUpdatesRanging rangeNew rangeOld old new).foldl applyUpdate addrs ↔
      x ∈ new := by
  have h1 : ∀ y, y ∈ rangeNew ↔ y ∈ new := fun y => by
    rw [hnew.mem_iff]; exact List.mem_dedup
  have h2 : ∀ y, y ∈ rangeOld ↔ y ∈ old := fun y => by
    rw [hold.mem_iff]; exact List.mem_dedup
  simp only [ConsulResolver.makeUpdatesRanging, addrSet, List.nil_append, List.foldl_append,
    mem_foldl_deletes, mem_foldl_adds, List.mem_filter, List.mem_dedup, decide_eq_true_eq, h,
    h1, h2]
  tauto

theorem RunInv.fresh (service tag : String) : RunInv (ResolverProc.fresh service tag) [] [] := by
  refine ⟨rfl, rfl, Nat.zero_le _, fun x => ?_, rfl⟩
  simp [replay, ResolverProc.fresh, Chan.make]

theorem RunInv.deliver {p p1 : ResolverProc} {out : List (List naming.Update)}
    {last : List String} (S : List String) (h : RunInv p out last)
    (hd : p.deliver S = Outcome.ok p1) : RunInv p1 out S := by
  obtain ⟨⟨sv, tg, ins, q, ⟨cap, buf, cl⟩⟩, pd⟩ := p
  obtain ⟨hcl, hcap, hlen, hrep, hpd⟩ := h
  simp only at hcl hcap hlen hrep
  subst hcl hcap
  cases pd with
  | some pr => simp [ResolverProc.deliver] at hd
  | none =>
    simp only [ResolverProc.deliver] at hd
    by_cases hdiff : ConsulResolver.makeUpdates ins S = []
    · have hset := (ConsulResolver.makeUpdates_eq_nil_iff _ _).1 hdiff
      rw [Resolver.makeUpdates_same_set _ S hset] at hd
      cases hd
      exact ⟨rfl, rfl, hlen, fun x => (hrep x).trans (hset x).symm, rfl⟩
    · rw [Resolver.makeUpdates_of_ne_nil _ S hdiff] at hd
      by_cases hroom : buf.length < 1
      · have hbuf : buf = [] := List.length_eq_zero.1 (by omega)
        subst hbuf
        simp [Resolver.sendUpdates, Chan.send] at hd
        subst hd
        refine ⟨rfl, rfl, by simp, fun x => ?_, rfl⟩
        simp only [List.append_nil] at hrep
        simp only [replay_snoc]
        exact mem_foldl_makeUpdates ins S _ hrep x
      · simp [Resolver.sendUpdates, Chan.send, hroom] at hd
        subst hd
        exact ⟨rfl, rfl, hlen, hrep, rfl, rfl, by simp only; omega⟩

theorem RunInv.next {p p1 : ResolverProc} {out : List (List naming.Update)}
    {last : List String} {res : List naming.Update × Option String} (h : RunInv p out last)
    (hn : p.Next = Outcome.ok (res, p1)) : RunInv p1 (out ++ [res.1]) last := by
  obtain ⟨⟨sv, tg, ins, q, ⟨cap, buf, cl⟩⟩, pd⟩ := p
  obtain ⟨hcl, hcap, hlen, hrep, hpd⟩ := h
  simp only at hcl hcap hlen hrep hpd
  subst hcl hcap
  cases buf with
  | nil => simp [ResolverProc.Next, Resolver.Next, Chan.recv, Outcome.bind] at hn
  | cons b rest =>
    have hrest : rest = [] := by simpa using hlen
    subst hrest
    cases pd with
    | none =>
      simp [ResolverProc.Next, Resolver.Next, Chan.recv, Outcome.bind, ResolverProc.resume] at hn
      obtain ⟨h1, h2⟩ := hn
      subst h1 h2
      exact ⟨rfl, rfl, by simp, by simpa using hrep, hpd⟩
    | some pr =>
      obtain ⟨u, S⟩ := pr
      obtain ⟨h1, h2, _⟩ := hpd
      simp [ResolverProc.Next, Resolver.Next, Chan.recv, Outcome.bind, ResolverProc.resume,
        Resolver.sendUpdates, Chan.send] at hn
      obtain ⟨h3, h4⟩ := hn
      subst h3 h4 h1 h2
      refine ⟨rfl, rfl, by simp, fun x => ?_, rfl⟩
      simp only [replay_snoc]
      exact mem_foldl_makeUpdates ins S _ (by simpa [replay_snoc] using hrep) x

theorem RunInv.of_run (acts : List ResolverEvent) :
    ∀ (p p1 : ResolverProc) (out out1 : List (List naming.Update)) (last : List String),
      RunInv p out last → run acts p out = Outcome.ok (p1, out1) →
      RunInv p1 out1 (lastFed last acts) := by
  induction acts with
  | nil =>
    intro p p1 out out1 last h hr
    simp [run] at hr
    obtain ⟨h1, h2⟩ := hr
    subst h1 h2
    exact h
  | cons a rest ih =>
    intro p p1 out out1 last h hr
    cases a with
    | feed S =>
      simp only [run] at hr
      cases hd : p.deliver S with
      | ok p2 =>
        rw [hd] at hr
        exact ih p2 p1 out out1 S (h.deliver S hd) hr
      | blocked => rw [hd] at hr; cases hr
      | panicked => rw [hd] at hr; cases hr
    | next =>
      simp only [run] at hr
      cases hn : p.Next with
      | ok res =>
        rw [hn] at hr
        exact ih res.2 p1 _ out1 last (h.next hn) hr
      | blocked => rw [hn] at hr; cases hr
      | panicked => rw [hn] at hr; cases hr

theorem RunInv.replay_all {p : ResolverProc} {out : List (List naming.Update)}
    {last : List String} (h : RunInv p out last) :
    (∀ x, x ∈ replay (out ++ p.r.updatesc.buf ++ p.pendingBatch) ↔ x ∈ last) ∧
    (p.pending = none → p.r.instances = last ∧
      ∀ x, x ∈ replay (out ++ p.r.updatesc.buf) ↔ x ∈ last) := by
  obtain ⟨r, pd⟩ := p
  obtain ⟨_, _, _, hrep, hpd⟩ := h
  cases pd with
  | none =>
    simp only at hpd hrep
    subst hpd
    exact ⟨by simpa [ResolverProc.pendingBatch] using hrep, fun _ => ⟨rfl, hrep⟩⟩
  | some pr =>
    obtain ⟨u, S⟩ := pr
    obtain ⟨h1, h2, _⟩ := hpd
    simp only at hrep h1 h2
    subst h1 h2
    refine ⟨fun x => ?_, fun hc => by cases hc⟩
    simp only [ResolverProc.pendingBatch, replay_snoc]
    exact mem_foldl_makeUpdates r.instances S _ hrep x

theorem lastFed_eq_getLastD (acts : List ResolverEvent) :
    ∀ last : List String, lastFed last acts = (feeds acts).getLastD last := by
  induction acts with
  | nil => intro last; rfl
  | cons a rest ih =>
    intro last
    cases a with
    | feed S =>
      show lastFed S rest = (S :: feeds rest).getLastD last
      rw [List.getLastD_cons]
      exact ih S
    | next => exact ih last

theorem feeds_eagerConsumer (snaps : List (List String)) :
    ∀ prev : List String, feeds (eagerConsumer prev snaps) = snaps := by
  induction snaps with
  | nil => intro prev; rfl
  | cons S rest ih =>
    intro prev
    by_cases hd : ConsulResolver.makeUpdates prev S = []
    · rw [eagerConsumer, if_pos hd]
      exact congrArg (List.cons S) (ih S)
    · rw [eagerConsumer, if_neg hd]
      exact congrArg (List.cons S) (ih S)

theorem run_eagerConsumer (snaps : List (List String)) :
    ∀ (prev : List String) (p : ResolverProc) (out : List (List naming.Update)),
      RunInv p out prev → p.pending = none → p.r.updatesc.buf = [] →
      ∃ p1 out1, run (eagerConsumer prev snaps) p out = Outcome.ok (p1, out1) ∧
        p1.pending = none ∧ p1.r.updatesc.buf = [] := by
  induction snaps with
  | nil => intro prev p out _ h1 h2; exact ⟨p, out, rfl, h1, h2⟩
  | cons S rest ih =>
    intro prev p out h h1 h2
    obtain ⟨⟨sv, tg, ins, q, ⟨cap, buf, cl⟩⟩, pd⟩ := p
    simp only at h1 h2
    subst h1 h2
    obtain ⟨hcl, hcap, hlen, hrep, hpd⟩ := id h
    simp only at hcl hcap hpd
    subst hcl hcap hpd
    by_cases hd : ConsulResolver.makeUpdates ins S = []
    · have hdel : ResolverProc.deliver
          ⟨⟨sv, tg, ins, q, ⟨1, [], false⟩⟩, none⟩ S =
          Outcome.ok ⟨⟨sv, tg, S, q, ⟨1, [], false⟩⟩, none⟩ :=
        Resolver.makeUpdates_same_set _ S ((ConsulResolver.makeUpdates_eq_nil_iff _ _).1 hd)
      obtain ⟨p1, out1, hr, hp, hb⟩ := ih S _ out (h.deliver S hdel) rfl rfl
      refine ⟨p1, out1, ?_, hp, hb⟩
      simp only [eagerConsumer, hd, if_true, List.nil_append, run, hdel, Outcome.bind]
      exact hr
    · have hdel : ResolverProc.deliver
          ⟨⟨sv, tg, ins, q, ⟨1, [], false⟩⟩, none⟩ S =
          Outcome.ok ⟨⟨sv, tg, S, q, ⟨1, [ConsulResolver.makeUpdates ins S], false⟩⟩, none⟩ := by
        show Resolver.makeUpdates _ S = _
        rw [Resolver.makeUpdates_of_ne_nil _ S hd,
          Resolver.sendUpdates_room ⟨sv, tg, ins, q, ⟨1, [], false⟩⟩ _ S rfl Nat.zero_lt_one]
        rfl
      have hnext : ResolverProc.Next
          ⟨⟨sv, tg, S, q, ⟨1, [ConsulResolver.makeUpdates ins S], false⟩⟩, none⟩ =
          Outcome.ok ((ConsulResolver.makeUpdates ins S, none),
            ⟨⟨sv, tg, S, q, ⟨1, [], false⟩⟩, none⟩) := rfl
      obtain ⟨p1, out1, hr, hp, hb⟩ :=
        ih S _ _ ((h.deliver S hdel).next hnext) rfl rfl
      refine ⟨p1, out1, ?_, hp, hb⟩
      simp only [eagerConsumer, hd, if_false, List.singleton_append, run, hdel, hnext,
        Outcome.bind]
      exact hr

/-- C10. Replay invariant of the demultiplexed Resolver: in every run of a
fresh, unclosed Resolver (snapshots fed and `Next()` calls in any order that
does not block), replaying from the empty set the batches returned, buffered
and about to be queued gives the address set of the last snapshot fed; once
the goroutine has completed its iteration the stored `instances` are that
snapshot, whether or not the iteration queued a batch, and the batches
returned and buffered alone replay to it. Every sequence of snapshots has such
a run: the one whose consumer takes each batch as soon as it is queued. -/
theorem replay_invariant (service tag : String) :
    (∀ (acts : List ResolverEvent) (p : ResolverProc) (out : List (List naming.Update)),
      run acts (ResolverProc.fresh service tag) [] = Outcome.ok (p, out) →
      (∀ x, x ∈ replay (out ++ p.r.updatesc.buf ++ p.pendingBatch) ↔
        x ∈ (feeds acts).getLastD []) ∧
      (p.pending = none →
        p.r.instances = (feeds acts).getLastD [] ∧
        ∀ x, x ∈ replay (out ++ p.r.updatesc.buf) ↔ x ∈ (feeds acts).getLastD [])) ∧
    (∀ snaps : List (List String),
      feeds (eagerConsumer [] snaps) = snaps ∧
      ∃ (p : ResolverProc) (out : List (List naming.Update)),
        run (eagerConsumer [] snaps) (ResolverProc.fresh service tag) [] = Outcome.ok (p, out) ∧
        p.pending = none ∧ p.r.updatesc.buf = [] ∧
        p.r.instances = snaps.getLastD [] ∧
        ∀ x, x ∈ replay out ↔ x ∈ snaps.getLastD []) := by
  refine ⟨fun acts p out hr => ?_, fun snaps => ⟨feeds_eagerConsumer snaps [], ?_⟩⟩
  · have h := RunInv.of_run acts _ p [] out [] (RunInv.fresh service tag) hr
    rw [lastFed_eq_getLastD] at h
    exact h.replay_all
  · obtain ⟨p, out, hr, hp, hb⟩ :=
      run_eagerConsumer snaps [] _ [] (RunInv.fresh service tag) rfl rfl
    have h := RunInv.of_run _ _ p [] out [] (RunInv.fresh service tag) hr
    rw [lastFed_eq_getLastD, feeds_eagerConsumer] at h
    obtain ⟨_, h2⟩ := h.replay_all
    obtain ⟨h3, h4⟩ := h2 hp
    refine ⟨p, out, hr, hp, hb, h3, fun x => ?_⟩
    have := h4 x
    rw [hb, List.append_nil] at this
    exact this

theorem replay_invariant_witness :
    run exampleRun (ResolverProc.fresh "svc" "") [] =
      Outcome.ok
        ({ r := { service := "svc", tag := "", instances := ["10.0.0.2:80", "10.0.0.3:80"],
                  quitc := { cap := 0, buf := [], closed := false },
                  updatesc := { cap := 1, buf := [], closed := false } },
           pending := none },
         [[⟨naming.Operation.Add, "10.0.0.1:80"⟩, ⟨naming.Operation.Add, "10.0.0.2:80"⟩],
          [⟨naming.Operation.Add, "10.0.0.3:80"⟩, ⟨naming.Operation.Delete, "10.0.0.1:80"⟩]]) ∧
    (∀ x, x ∈ replay
        ([[⟨naming.Operation.Add, "10.0.0.1:80"⟩, ⟨naming.Operation.Add, "10.0.0.2:80"⟩],
          [⟨naming.Operation.Add, "10.0.0.3:80"⟩, ⟨naming.Operation.Delete, "10.0.0.1:80"⟩]] ++
          [] ++ []) ↔ x ∈ ["10.0.0.2:80", "10.0.0.3:80"]) :=
  ⟨by decide, ((replay_invariant "svc" "").1 exampleRun _ _ rfl).1⟩

/-! ## Fan-out -/

theorem StreamDemux.broadcast_spec (S : List String) (channels : List Nat) :
    ∀ (rs rs1 : List ResolverProc), channels.Nodup →
      StreamDemux.broadcast S channels rs = Outcome.ok rs1 →
      rs1.length = rs.length ∧
      (∀ i ∈ channels, ∃ p p1, rs[i]? = some p ∧ p.deliver S = Outcome.ok p1 ∧
        rs1[i]? = some p1) ∧
      (∀ i, i ∉ channels → rs1[i]? = rs[i]?) := by
  induction channels with
  | nil =>
    intro rs rs1 _ h
    simp only [StreamDemux.broadcast, Outcome.ok.injEq] at h
    subst h
    exact ⟨rfl, fun i hi => (by cases hi), fun _ _ => rfl⟩
  | cons c cs ih =>
    intro rs rs1 hnd h
    obtain ⟨hc, hcs⟩ := List.nodup_cons.1 hnd
    simp only [StreamDemux.broadcast] at h
    cases hp : rs[c]? with
    | none => rw [hp] at h; cases h
    | some p =>
      rw [hp] at h
      simp only at h
      cases hd : p.deliver S with
      | blocked => rw [hd] at h; cases h
      | panicked => rw [hd] at h; cases h
      | ok p1 =>
        rw [hd] at h
        simp only [Outcome.bind] at h
        obtain ⟨hlen, hin, hout⟩ := ih (rs.set c p1) rs1 hcs h
        have hclt : c < rs.length := by
          by_contra hge
          rw [List.getElem?_eq_none (by omega)] at hp
          cases hp
        refine ⟨by rw [hlen, List.length_set], fun i hi => ?_, fun i hi => ?_⟩
        · rcases List.mem_cons.1 hi with rfl | hi
          · refine ⟨p, p1, hp, hd, ?_⟩
            rw [hout i hc, List.getElem?_set_self hclt]
          · have hne : c ≠ i := fun h => hc (h ▸ hi)
            obtain ⟨q, q1, hq, hq1, hq2⟩ := hin i hi
            rw [List.getElem?_set_ne hne] at hq
            exact ⟨q, q1, hq, hq1, hq2⟩
        · have hne : c ≠ i := fun h => hi (h ▸ List.mem_cons_self _ _)
          have hi2 : i ∉ cs := fun h => hi (List.mem_cons_of_mem _ h)
          rw [hout i hi2, List.getElem?_set_ne hne]

theorem StreamDemux.pollService_ok (c : api.Client) (w w1 : World) (s : String)
    (ic : instanceChannels) (h : StreamDemux.pollService c w s ic = Outcome.ok w1) :
    ∃ m, (c s "" true ic.lastIndex).meta = some m ∧
      StreamDemux.broadcast ((c s "" true ic.lastIndex).services.map instanceAddr)
        ic.channels w.resolvers = Outcome.ok w1.resolvers ∧
      w1.sd.services = StreamDemux.update w.sd.services s
        (fun ic => { ic with lastIndex := m.LastIndex }) := by
  unfold StreamDemux.pollService at h
  cases hb : StreamDemux.broadcast ((c s "" true ic.lastIndex).services.map instanceAddr)
      ic.channels w.resolvers with
  | blocked => simp [hb, Outcome.bind] at h
  | panicked => simp [hb, Outcome.bind] at h
  | ok rs =>
    cases hm : (c s "" true ic.lastIndex).meta with
    | none => simp [hb, hm, Outcome.bind] at h
    | some m =>
      simp only [hb, hm, Outcome.bind, Outcome.ok.injEq] at h
      subst h
      exact ⟨m, rfl, rfl, rfl⟩

theorem ResolverProc.deliver_ok (p p1 : ResolverProc) (S : List String)
    (h : p.deliver S = Outcome.ok p1) :
    p.pending = none ∧ Resolver.makeUpdates p.r S = Outcome.ok p1 := by
  unfold ResolverProc.deliver at h
  cases hp : p.pending with
  | some pr => rw [hp] at h; cases h
  | none => rw [hp] at h; exact ⟨rfl, h⟩

theorem Chan.send_ok {α : Type} (c c1 : Chan α) (v : α) (h : c.send v = Outcome.ok c1) :
    c1.closed = c.closed ∧ c1.cap = c.cap ∧ c1.buf = c.buf ++ [v] ∧ c.closed = false := by
  obtain ⟨cap, buf, cl⟩ := c
  cases cl
  · by_cases hl : buf.length < cap
    · simp [Chan.send, hl] at h
      subst h
      exact ⟨rfl, rfl, rfl, rfl⟩
    · simp [Chan.send, hl] at h
  · simp [Chan.send] at h

theorem Chan.recv_ok {α : Type} (zero : α) (c c1 : Chan α) (v : α)
    (h : c.recv zero = Outcome.ok (v, c1)) : c1.closed = c.closed ∧ c1.cap = c.cap := by
  obtain ⟨cap, buf, cl⟩ := c
  cases buf with
  | nil =>
    cases cl
    · simp [Chan.recv] at h
    · simp [Chan.recv] at h
      rw [← h.2]
      exact ⟨rfl, rfl⟩
  | cons b rest =>
    simp [Chan.recv] at h
    rw [← h.2]
    exact ⟨rfl, rfl⟩

theorem ConsulResolver.inv_of_new (c : api.Client) (service tag : String)
    (r : ConsulResolver) (u : Updater)
    (h : ConsulResolver.NewConsulResolver c service tag = Outcome.ok (Sum.inr (r, u))) :
    r.Inv ∧ r.updatesc.buf = [ConsulResolver.makeUpdates [] u.oldInstances] := by
  unfold ConsulResolver.NewConsulResolver at h
  simp only at h
  cases hg : ConsulResolver.getInstances c
      { service := service, tag := tag, passingOnly := true, quitc := Chan.make Unit 0,
        updatesc := Chan.make (List naming.Update) 1 } 0 with
  | blocked => rw [hg] at h; cases h
  | panicked => rw [hg] at h; cases h
  | ok res =>
    rw [hg] at h
    obtain ⟨instances, index, err⟩ := res
    cases err with
    | some e => simp [Outcome.bind] at h
    | none =>
      simp [Outcome.bind, Chan.send, Chan.make] at h
      obtain ⟨h1, h2⟩ := h
      subst h1 h2
      exact ⟨⟨rfl, rfl⟩, rfl⟩

theorem ConsulResolver.inv_next (r r2 : ConsulResolver)
    (res : List naming.Update × Option String) (h : r.Inv)
    (hn : ConsulResolver.Next r = Outcome.ok (res, r2)) : r2.Inv := by
  unfold ConsulResolver.Next at hn
  cases hr : r.updatesc.recv [] with
  | blocked => rw [hr] at hn; cases hn
  | panicked => rw [hr] at hn; cases hn
  | ok v =>
    rw [hr] at hn
    simp only [Outcome.bind, Outcome.ok.injEq, Prod.mk.injEq] at hn
    obtain ⟨_, h2⟩ := hn
    subst h2
    obtain ⟨hc, _⟩ := Chan.recv_ok [] r.updatesc v.2 v.1 hr
    exact ⟨h.1, by rw [h.2]; exact hc.symm⟩

theorem ConsulResolver.inv_updater (c : api.Client) (r r1 : ConsulResolver) (u u1 : Updater)
    (h : r.Inv) (hu : ConsulResolver.updater c r u = Outcome.ok (r1, u1)) : r1.Inv := by
  obtain ⟨sv, tg, po, ⟨qcap, qbuf, qcl⟩, ch⟩ := r
  obtain ⟨h1, h2⟩ := h
  simp only at h1 h2
  subst h1
  cases qcl
  · simp only [ConsulResolver.updater, Chan.recv] at hu
    cases hg : ConsulResolver.getInstances c ⟨sv, tg, po, ⟨qcap, [], false⟩, ch⟩ u.lastIndex with
    | blocked => simp [hg, Outcome.bind] at hu
    | panicked => simp [hg, Outcome.bind] at hu
    | ok res =>
      obtain ⟨newInstances, lastIndex, err⟩ := res
      cases err with
      | some e => simp [hg, Outcome.bind] at hu
      | none =>
        cases hs : ch.send (ConsulResolver.makeUpdates u.oldInstances newInstances) with
        | blocked => simp [hg, hs, Outcome.bind] at hu
        | panicked => simp [hg, hs, Outcome.bind] at hu
        | ok ch1 =>
          simp [hg, hs, Outcome.bind] at hu
          obtain ⟨hu1, _⟩ := hu
          subst hu1
          obtain ⟨hc, _⟩ := Chan.send_ok ch ch1 _ hs
          exact ⟨rfl, by simp only; rw [hc]; exact h2⟩
  · simp [ConsulResolver.updater, Chan.recv] at hu
    obtain ⟨hu1, _⟩ := hu
    subst hu1
    exact ⟨rfl, h2⟩

theorem Resolver.inv_fresh (service tag : String) : (ResolverProc.fresh service tag).r.Inv :=
  ⟨rfl, rfl⟩

theorem Resolver.inv_after_next (r r2 : Resolver)
    (res : List naming.Update × Option String) (h : r.Inv)
    (hn : Resolver.Next r = Outcome.ok (res, r2)) :
    r2.Inv ∧ r2.service = r.service := by
  unfold Resolver.Next at hn
  cases hr : r.updatesc.recv [] with
  | blocked => rw [hr] at hn; cases hn
  | panicked => rw [hr] at hn; cases hn
  | ok v =>
    rw [hr] at hn
    simp only [Outcome.bind, Outcome.ok.injEq, Prod.mk.injEq] at hn
    obtain ⟨_, h2⟩ := hn
    subst h2
    obtain ⟨hc, _⟩ := Chan.recv_ok [] r.updatesc v.2 v.1 hr
    exact ⟨⟨h.1, by rw [h.2]; exact hc.symm⟩, rfl⟩

theorem Resolver.inv_sendUpdates (r : Resolver) (updates : List naming.Update)
    (S : List String) (p1 : ResolverProc) (h : r.Inv)
    (hs : Resolver.sendUpdates r updates S = Outcome.ok p1) :
    p1.r.Inv ∧ p1.r.service = r.service := by
  unfold Resolver.sendUpdates at hs
  cases hc : r.updatesc.send updates with
  | blocked => rw [hc] at hs; cases hs; exact ⟨h, rfl⟩
  | panicked => rw [hc] at hs; cases hs
  | ok ch =>
    rw [hc] at hs
    cases hs
    obtain ⟨h1, _⟩ := Chan.send_ok r.updatesc ch updates hc
    exact ⟨⟨h.1, by simp only; rw [h1]; exact h.2⟩, rfl⟩

theorem Resolver.inv_makeUpdates (r : Resolver) (S : List String) (p1 : ResolverProc)
    (h : r.Inv) (hm : Resolver.makeUpdates r S = Outcome.ok p1) :
    p1.r.Inv ∧ p1.r.service = r.service := by
  rw [Resolver.makeUpdates_eq] at hm
  by_cases hd : (ConsulResolver.makeUpdates r.instances S).length > 0
  · rw [if_pos hd] at hm
    exact Resolver.inv_sendUpdates r _ S p1 h hm
  · rw [if_neg hd] at hm
    cases hm
    exact ⟨h, rfl⟩

theorem Resolver.sendUpdates_service (r : Resolver) (updates : List naming.Update)
    (S : List String) (p1 : ResolverProc)
    (hs : Resolver.sendUpdates r updates S = Outcome.ok p1) : p1.r.service = r.service := by
  unfold Resolver.sendUpdates at hs
  cases hc : r.updatesc.send updates with
  | blocked => rw [hc] at hs; cases hs; rfl
  | panicked => rw [hc] at hs; cases hs
  | ok ch => rw [hc] at hs; cases hs; rfl

theorem ResolverProc.deliver_service (p p1 : ResolverProc) (S : List String)
    (h : p.deliver S = Outcome.ok p1) : p1.r.service = p.r.service := by
  obtain ⟨_, hm⟩ := ResolverProc.deliver_ok p p1 S h
  rw [Resolver.makeUpdates_eq] at hm
  by_cases hd : (ConsulResolver.makeUpdates p.r.instances S).length > 0
  · rw [if_pos hd] at hm
    exact Resolver.sendUpdates_service _ _ _ _ hm
  · rw [if_neg hd] at hm
    cases hm
    rfl

theorem ResolverProc.resume_service (p p1 : ResolverProc)
    (h : p.resume = Outcome.ok p1) : p1.r.service = p.r.service := by
  unfold ResolverProc.resume at h
  cases hp : p.pending with
  | none => rw [hp] at h; cases h; rfl
  | some pr =>
    rw [hp] at h
    exact Resolver.sendUpdates_service _ _ _ _ h

theorem ResolverProc.Next_service (p p1 : ResolverProc)
    (res : List naming.Update × Option String)
    (h : p.Next = Outcome.ok (res, p1)) : p1.r.service = p.r.service := by
  unfold ResolverProc.Next Resolver.Next at h
  cases hr : p.r.updatesc.recv [] with
  | blocked => rw [hr] at h; cases h
  | panicked => rw [hr] at h; cases h
  | ok v =>
    rw [hr] at h
    simp only [Outcome.bind] at h
    cases hres : ResolverProc.resume
        { r := { p.r with updatesc := v.2 }, pending := p.pending } with
    | blocked => rw [hres] at h; cases h
    | panicked => rw [hres] at h; cases h
    | ok p2 =>
      rw [hres] at h
      simp only [Outcome.ok.injEq, Prod.mk.injEq] at h
      rw [← h.2]
      have hsvc := ResolverProc.resume_service _ _ hres
      exact hsvc

theorem ResolverProc.Close_service (p p1 : ResolverProc)
    (h : p.Close = Outcome.ok p1) : p1.r.service = p.r.service := by
  unfold ResolverProc.Close at h
  cases hc : Resolver.Close p.r with
  | blocked => rw [hc] at h; cases h
  | panicked => rw [hc] at h; cases h
  | ok r1 =>
    rw [hc] at h
    simp only [Outcome.bind] at h
    have h1 := ResolverProc.resume_service _ _ h
    simp only at h1
    rw [h1]
    unfold Resolver.Close at hc
    cases hq : p.r.quitc.recv () with
    | ok v => rw [hq] at hc; cases hc; rfl
    | panicked => rw [hq] at hc; cases hc
    | blocked =>
      rw [hq] at hc
      simp only at hc
      cases hq1 : p.r.quitc.close with
      | blocked => rw [hq1] at hc; cases hc
      | panicked => rw [hq1] at hc; cases hc
      | ok q1 =>
        rw [hq1] at hc
        simp only [Outcome.bind] at hc
        cases hu : p.r.updatesc.close with
        | blocked => rw [hu] at hc; cases hc
        | panicked => rw [hu] at hc; cases hc
        | ok u1 => rw [hu] at hc; cases hc; rfl

theorem World.WF_NewStreamDemux : StreamDemux.NewStreamDemux.WF := by
  decide

/-- A state with the same resolver names and the same channels under every
key is well formed when the original is. -/
theorem World.WF_of_same (w w1 : World) (h : w.WF)
    (hlen : w1.resolvers.length = w.resolvers.length)
    (hsvc : ∀ i, w1.serviceOf i = w.serviceOf i)
    (hkeys : w1.sd.services.map (fun e => (e.1, e.2.channels)) =
      w.sd.services.map (fun e => (e.1, e.2.channels))) : w1.WF := by
  obtain ⟨hnd, hent, hreg⟩ := h
  have hfst : w1.sd.services.map Prod.fst = w.sd.services.map Prod.fst := by
    have := congrArg (List.map Prod.fst) hkeys
    simpa [List.map_map, Function.comp_def] using this
  refine ⟨hfst ▸ hnd, fun e1 he1 => ?_, fun i hi => ?_⟩
  · have hm : (e1.1, e1.2.channels) ∈ w.sd.services.map (fun e => (e.1, e.2.channels)) := by
      rw [← hkeys]
      exact List.mem_map_of_mem (fun e => (e.1, e.2.channels)) he1
    obtain ⟨e, he, heq⟩ := List.mem_map.1 hm
    simp only [Prod.mk.injEq] at heq
    obtain ⟨hk, hch⟩ := heq
    obtain ⟨h1, h2, h3⟩ := hent e he
    rw [← hk, ← hch]
    refine ⟨h1, fun i hi => ?_, fun i hi hs => ?_⟩
    · rw [hsvc]; exact h2 i hi
    · rw [hsvc] at hs; exact h3 i (hlen ▸ hi) hs
  · obtain ⟨e, he, hs⟩ := hreg i (hlen ▸ hi)
    have hm : (e.1, e.2.channels) ∈ w1.sd.services.map (fun e => (e.1, e.2.channels)) := by
      rw [hkeys]
      exact List.mem_map_of_mem (fun e => (e.1, e.2.channels)) he
    obtain ⟨e1, he1, heq⟩ := List.mem_map.1 hm
    simp only [Prod.mk.injEq] at heq
    exact ⟨e1, he1, by rw [hsvc, heq.1]; exact hs⟩

theorem World.serviceOf_set (w : World) (i : Nat) (p p1 : ResolverProc)
    (hp : w.resolvers[i]? = some p) (hs : p1.r.service = p.r.service) (j : Nat) :
    World.serviceOf { w with resolvers := w.resolvers.set i p1 } j = w.serviceOf j := by
  unfold World.serviceOf
  simp only
  by_cases hij : i = j
  · subst hij
    have hlt : i < w.resolvers.length := by
      by_contra hge
      rw [List.getElem?_eq_none (by omega)] at hp
      cases hp
    rw [List.getElem?_set_self hlt, hp]
    simp [hs]
  · rw [List.getElem?_set_ne hij]

theorem World.WF_Next (w w1 : World) (i : Nat) (res : List naming.Update × Option String)
    (h : w.WF) (hn : w.Next i = Outcome.ok (res, w1)) : w1.WF := by
  unfold World.Next at hn
  cases hp : w.resolvers[i]? with
  | none => rw [hp] at hn; cases hn
  | some p =>
    rw [hp] at hn
    simp only at hn
    cases hpn : p.Next with
    | blocked => rw [hpn] at hn; cases hn
    | panicked => rw [hpn] at hn; cases hn
    | ok v =>
      rw [hpn] at hn
      simp only [Outcome.bind, Outcome.ok.injEq, Prod.mk.injEq] at hn
      rw [← hn.2]
      exact World.WF_of_same w _ h (by simp)
        (World.serviceOf_set w i p v.2 hp (ResolverProc.Next_service p v.2 v.1 hpn)) rfl

theorem World.WF_Close (w w1 : World) (i : Nat) (h : w.WF)
    (hc : w.Close i = Outcome.ok w1) : w1.WF := by
  unfold World.Close at hc
  cases hp : w.resolvers[i]? with
  | none => rw [hp] at hc; cases hc
  | some p =>
    rw [hp] at hc
    simp only at hc
    cases hpc : p.Close with
    | blocked => rw [hpc] at hc; cases hc
    | panicked => rw [hpc] at hc; cases hc
    | ok p1 =>
      rw [hpc] at hc
      simp only [Outcome.bind, Outcome.ok.injEq] at hc
      rw [← hc]
      exact World.WF_of_same w _ h (by simp)
        (World.serviceOf_set w i p p1 hp (ResolverProc.Close_service p p1 hpc)) rfl

theorem StreamDemux.map_update_channels (l : List (String × instanceChannels)) (s : String)
    (g : instanceChannels → instanceChannels) (hg : ∀ ic, (g ic).channels = ic.channels) :
    (StreamDemux.update l s g).map (fun e => (e.1, e.2.channels)) =
      l.map (fun e => (e.1, e.2.channels)) := by
  unfold StreamDemux.update
  rw [List.map_map]
  apply List.map_congr_left
  intro e _
  by_cases he : e.1 = s <;> simp [he, hg]

theorem World.WF_pollService (c : api.Client) (w w1 : World) (s : String)
    (ic : instanceChannels) (h : w.WF) (hnd : ic.channels.Nodup)
    (hp : StreamDemux.pollService c w s ic = Outcome.ok w1) : w1.WF := by
  obtain ⟨m, _, hb, hsd⟩ := StreamDemux.pollService_ok c w w1 s ic hp
  obtain ⟨hlen, hin, hout⟩ :=
    StreamDemux.broadcast_spec _ ic.channels w.resolvers w1.resolvers hnd hb
  refine World.WF_of_same w w1 h hlen (fun i => ?_) ?_
  · unfold World.serviceOf
    by_cases hi : i ∈ ic.channels
    · obtain ⟨p, p1, h1, h2, h3⟩ := hin i hi
      rw [h1, h3]
      simp [ResolverProc.deliver_service p p1 _ h2]
    · rw [hout i hi]
  · rw [hsd]
    exact StreamDemux.map_update_channels _ s _ (fun _ => rfl)

theorem World.WF_pollAll (c : api.Client) (entries : List (String × instanceChannels)) :
    ∀ (w w1 : World), w.WF → (∀ e ∈ entries, e.2.channels.Nodup) →
      StreamDemux.pollAll c entries w = Outcome.ok w1 → w1.WF := by
  induction entries with
  | nil =>
    intro w w1 h _ hp
    simp only [StreamDemux.pollAll, Outcome.ok.injEq] at hp
    exact hp ▸ h
  | cons e rest ih =>
    intro w w1 h hnd hp
    obtain ⟨s, ic⟩ := e
    simp only [StreamDemux.pollAll] at hp
    cases hs : StreamDemux.pollService c w s ic with
    | blocked => rw [hs] at hp; cases hp
    | panicked => rw [hs] at hp; cases hp
    | ok w2 =>
      rw [hs] at hp
      exact ih w2 w1
        (World.WF_pollService c w w2 s ic h (hnd (s, ic) (List.mem_cons_self _ _)) hs)
        (fun e he => hnd e (List.mem_cons_of_mem _ he)) hp

theorem World.WF_getInstances (c : api.Client) (w w1 : World) (h : w.WF)
    (hp : StreamDemux.getInstances c w = Outcome.ok w1) : w1.WF :=
  World.WF_pollAll c w.sd.services w w1 h (fun e he => (h.2.1 e he).1) hp

theorem StreamDemux.lookup_eq_none (l : List (String × instanceChannels)) (s : String)
    (h : StreamDemux.lookup l s = none) : ∀ e ∈ l, e.1 ≠ s := by
  unfold StreamDemux.lookup at h
  simp only [Option.map_eq_none', List.find?_eq_none, decide_eq_true_eq] at h
  exact h

theorem StreamDemux.lookup_eq_some (l : List (String × instanceChannels)) (s : String)
    (ic : instanceChannels) (h : StreamDemux.lookup l s = some ic) : (s, ic) ∈ l := by
  unfold StreamDemux.lookup at h
  simp only [Option.map_eq_some'] at h
  obtain ⟨e, he, hic⟩ := h
  have h1 := List.mem_of_find?_eq_some he
  have h2 := List.find?_some he
  simp only [decide_eq_true_eq] at h2
  obtain ⟨k, v⟩ := e
  simp only at h2 hic
  subst h2 hic
  exact h1

theorem World.serviceOf_lt (w : World) (i : Nat) (s : String)
    (h : w.serviceOf i = some s) : i < w.resolvers.length := by
  by_contra hge
  unfold World.serviceOf at h
  rw [List.getElem?_eq_none (by omega)] at h
  cases h

/-- The entry `NewResolver` adds for a name that has none keeps the state well
formed. -/
theorem World.WF_add_entry (w : World) (service : String) (h : w.WF) :
    World.WF
      { sd := { services :=
                  match StreamDemux.lookup w.sd.services service with
                  | some _ => w.sd.services
                  | none => w.sd.services ++
                      [(service, ({ lastIndex := 0, channels := [] } : instanceChannels))] },
        resolvers := w.resolvers } ∧
    ∃ e ∈ (match StreamDemux.lookup w.sd.services service with
            | some _ => w.sd.services
            | none => w.sd.services ++
                      [(service, ({ lastIndex := 0, channels := [] } : instanceChannels))]),
      e.1 = service := by
  obtain ⟨hnd, hent, hreg⟩ := id h
  cases hl : StreamDemux.lookup w.sd.services service with
  | some ic =>
    exact ⟨h, (service, ic), StreamDemux.lookup_eq_some _ _ _ hl, rfl⟩
  | none =>
    have hno := StreamDemux.lookup_eq_none _ _ hl
    refine ⟨⟨?_, fun e he => ?_, fun i hi => ?_⟩, (service, ⟨0, []⟩), by simp, rfl⟩
    · simp only [List.map_append, List.map_cons, List.map_nil]
      rw [List.nodup_append]
      refine ⟨hnd, List.nodup_singleton _, ?_⟩
      intro k hk hk2
      simp only [List.mem_singleton] at hk2
      obtain ⟨e, he, rfl⟩ := List.mem_map.1 hk
      exact hno e he hk2
    · rcases List.mem_append.1 he with he | he
      · exact hent e he
      · simp only [List.mem_singleton] at he
        subst he
        refine ⟨List.nodup_nil, fun i hi => (by cases hi), fun i hi hs => ?_⟩
        obtain ⟨e, he, hs2⟩ := hreg i hi
        have hs3 : World.serviceOf w i = some service := hs
        rw [hs3] at hs2
        simp only [Option.some.injEq] at hs2
        exact absurd hs2.symm (hno e he)
    · obtain ⟨e, he, hs⟩ := hreg i hi
      exact ⟨e, List.mem_append_left _ he, hs⟩

theorem World.WF_NewResolver (w : World) (service tag : String) (h : w.WF) :
    (StreamDemux.NewResolver w service tag).1.WF := by
  obtain ⟨⟨hnd, hent, hreg⟩, ekey, hekey, hkey⟩ := World.WF_add_entry w service h
  have hsvc_lt : ∀ i, i < w.resolvers.length →
      (StreamDemux.NewResolver w service tag).1.serviceOf i = w.serviceOf i := by
    intro i hi
    simp [World.serviceOf, StreamDemux.NewResolver, List.getElem?_append_left hi]
  have hsvc_n : (StreamDemux.NewResolver w service tag).1.serviceOf w.resolvers.length =
      some service := by
    simp [World.serviceOf, StreamDemux.NewResolver]
  have hlen : (StreamDemux.NewResolver w service tag).1.resolvers.length =
      w.resolvers.length + 1 := by
    simp [StreamDemux.NewResolver]
  simp only at hnd hent hreg
  refine ⟨?_, fun e1 he1 => ?_, fun i hi => ?_⟩
  · have : (StreamDemux.NewResolver w service tag).1.sd.services.map Prod.fst =
        List.map Prod.fst
          (match StreamDemux.lookup w.sd.services service with
            | some _ => w.sd.services
            | none => w.sd.services ++
                      [(service, ({ lastIndex := 0, channels := [] } : instanceChannels))]) := by
      simp only [StreamDemux.NewResolver, StreamDemux.update, List.map_map]
      apply List.map_congr_left
      intro e _
      by_cases he : e.1 = service <;> simp [he]
    rw [this]
    exact hnd
  · simp only [StreamDemux.NewResolver, StreamDemux.update] at he1
    obtain ⟨e, he, heq⟩ := List.mem_map.1 he1
    obtain ⟨h1, h2, h3⟩ := hent e he
    have hchlt : ∀ i ∈ e.2.channels, i < w.resolvers.length :=
      fun i hi => World.serviceOf_lt w i e.1 (h2 i hi)
    by_cases hes : e.1 = service
    · rw [if_pos hes] at heq
      subst heq
      simp only
      refine ⟨?_, fun i hi => ?_, fun i hi hs => ?_⟩
      · rw [List.nodup_append]
        refine ⟨h1, List.nodup_singleton _, ?_⟩
        intro k hk hk2
        simp only [List.mem_singleton] at hk2
        subst hk2
        exact absurd (hchlt _ hk) (Nat.lt_irrefl _)
      · rcases List.mem_append.1 hi with hi | hi
        · rw [hsvc_lt i (hchlt i hi)]
          exact h2 i hi
        · simp only [List.mem_singleton] at hi
          subst hi
          rw [hsvc_n, hes]
      · rw [hlen] at hi
        by_cases hin : i < w.resolvers.length
        · rw [hsvc_lt i hin] at hs
          exact List.mem_append_left _ (h3 i hin hs)
        · have : i = w.resolvers.length := by omega
          subst this
          exact List.mem_append_right _ (List.mem_singleton_self _)
    · rw [if_neg hes] at heq
      subst heq
      refine ⟨h1, fun i hi => ?_, fun i hi hs => ?_⟩
      · rw [hsvc_lt i (hchlt i hi)]
        exact h2 i hi
      · rw [hlen] at hi
        by_cases hin : i < w.resolvers.length
        · rw [hsvc_lt i hin] at hs
          exact h3 i hin hs
        · have : i = w.resolvers.length := by omega
          subst this
          rw [hsvc_n] at hs
          simp only [Option.some.injEq] at hs
          exact absurd hs.symm hes
  · rw [hlen] at hi
    have hmemg : ∀ e ∈ (match StreamDemux.lookup w.sd.services service with
          | some _ => w.sd.services
          | none => w.sd.services ++
                      [(service, ({ lastIndex := 0, channels := [] } : instanceChannels))]),
        ∃ e1 ∈ (StreamDemux.NewResolver w service tag).1.sd.services, e1.1 = e.1 := by
      intro e he
      refine ⟨_, List.mem_map_of_mem _ he, ?_⟩
      by_cases hes : e.1 = service <;> simp [hes]
    by_cases hin : i < w.resolvers.length
    · obtain ⟨e, he, hs⟩ := hreg i hin
      obtain ⟨e1, he1, hk⟩ := hmemg e he
      exact ⟨e1, he1, by rw [hsvc_lt i hin, hk]; exact hs⟩
    · have : i = w.resolvers.length := by omega
      subst this
      obtain ⟨e1, he1, hk⟩ := hmemg ekey hekey
      exact ⟨e1, he1, by rw [hsvc_n, hk, hkey]⟩
